import Mathlib

/-!
# Migration runners (`util/migration/sql.go`, `util/migration/nosql.go`)

A shallow embedding of the migration engine: the relational runner first, the document
runner in the section that follows it.  For the relational runner:

* The registry `map[int]*Script` is an association list whose first binding of a
  key is the value of the map at that key; a `none` value is a nil `*Script`.
* The database is seen through the tracking table only: `Store.rows` holds the
  committed rows of `migrations` in insertion order and `Store.calls` the calls the
  runner has issued on the ORM collaborator, oldest first.
* Whether a call on the collaborator succeeds is given by `Env`: the outcome depends on
  the call (the script text or the version) and not on when the call is made.
  Statements issued inside a transaction reach the committed table only when `Commit`
  succeeds; a rollback (or a failed commit) leaves the committed table as it was.
  Migration scripts are taken not to write to the tracking table themselves.
* The query ordered by version descending returns the rows sorted that way; the query
  of `isAlreadyMigrated`, ordered by a constant, returns them in table order.
* A nil dereference or an index out of range is the outcome `Outcome.panic`.
-/

namespace Migration

/-- The `Script` struct of `definition.go`. -/
structure Script where
  Up : String
  Down : String
deriving DecidableEq, Repr

/-- The registry `map[int]*Script`. -/
abbrev Registry := List (Int × Option Script)

/-- The value `m[k]` of a Go map of pointers: nil when the key is absent. -/
def Registry.index (reg : Registry) (k : Int) : Option Script :=
  match reg.lookup k with
  | some p => p
  | none => none

/-- The keys of the map, each once. -/
def Registry.keys (reg : Registry) : List Int :=
  (reg.map Prod.fst).dedup

/-- The slice `keys` after `for k := range s.migrations {...}; sort.Ints(keys)`. -/
def sortedKeys (reg : Registry) : List Int :=
  reg.keys.insertionSort (· ≤ ·)

/-- Calls on the ORM collaborator made by the relational runner. -/
inductive Call where
  /-- The call `s.orm.RawSql("SELECT 1 FROM migrations")`. -/
  | probe
  /-- The call `s.orm.RawSql("SELECT version FROM migrations ORDER BY version DESC")`. -/
  | selectLatest
  /-- The call `s.orm.RawSql("SELECT version FROM migrations ORDER BY ?", "version")`. -/
  | selectVersions
  /-- The call `s.orm.Begin()`. -/
  | begin
  /-- The call `tx.RawSql(script)` on a migration script. -/
  | txRawSql (script : String)
  /-- The call `tx.Exec("INSERT INTO migrations VALUES(?)", version)`. -/
  | insert (version : Int)
  /-- The call `tx.Exec("DELETE FROM migrations WHERE version >= ?", version)`. -/
  | delete (version : Int)
  /-- The call `tx.Exec("CREATE TABLE migrations(version bigint not null)")`. -/
  | createTable
  /-- The call `tx.Commit()`. -/
  | commit
  /-- The call `tx.Rollback()`. -/
  | rollback
  /-- The call `s.orm.Exec("TRUNCATE TABLE migrations")`. -/
  | truncate
deriving DecidableEq, Repr

/-- The tracking table and the trace of collaborator calls. -/
structure Store where
  rows : List Int
  calls : List Call
deriving DecidableEq, Repr

/-- Append calls to the trace. -/
def Store.record (st : Store) (cs : List Call) : Store :=
  { st with calls := st.calls ++ cs }

/-- Outcomes of the collaborator calls. -/
structure Env where
  /-- The existence probe `SELECT 1 FROM migrations` succeeds. -/
  probeOk : Bool
  /-- The query ordered by version descending succeeds. -/
  latestOk : Bool
  /-- The query of `isAlreadyMigrated` succeeds. -/
  versionsOk : Bool
  /-- The call `rows.Scan` succeeds. -/
  scanOk : Bool
  /-- The call `tx.RawSql(script)` succeeds. -/
  rawOk : String → Bool
  /-- The insert of the tracking row succeeds. -/
  insertOk : Int → Bool
  /-- The delete of the tracking rows succeeds. -/
  deleteOk : Int → Bool
  /-- The commit of the transaction of a version succeeds. -/
  commitOk : Int → Bool
  /-- The rollback of the transaction of a version succeeds. -/
  rollbackOk : Int → Bool
  /-- The truncate statement succeeds. -/
  truncateOk : Bool
  /-- The statement creating the tracking table succeeds. -/
  createOk : Bool
  /-- The commit of the transaction of `Initialize` succeeds. -/
  createCommitOk : Bool
  /-- The rollback of the transaction of `Initialize` succeeds. -/
  createRollbackOk : Bool

/-- Errors returned by the relational runner; the number is the version. -/
inductive Err where
  | tableNotFound
  | latestQueryFailed
  | latestScanFailed
  | upBlank (version : Int)
  | upRollbackFailed (version : Int)
  | upCommitFailed (version : Int)
  | downBlank (version : Int)
  | downRollbackFailed (version : Int)
  | downCommitFailed (version : Int)
  | checkQueryFailed (version : Int)
  | checkScanFailed
  | notMigrated (version : Int)
  | truncateFailed
  | createRollbackFailed
  | createCommitFailed
deriving DecidableEq, Repr

/-- The text of the error built by the runner (for a wrapped error, the text it adds). -/
def Err.message : Err → String
  | .tableNotFound => "migration table migrations not found!"
  | .latestQueryFailed => "failed to get latest migration version from database!"
  | .latestScanFailed => "failed to scan version column!"
  | .upBlank v => "[MIGRATION-UP] - migration script " ++ toString v ++ " can\x27t be blank!"
  | .upRollbackFailed v => "failed to rollback migration with version " ++ toString v
  | .upCommitFailed v => "failed to commit transaction with version " ++ toString v
  | .downBlank v => "[MIGRATION-DOWN] - script with version " ++ toString v ++ " can\x27t be empty"
  | .downRollbackFailed v => "failed to rollback migration with version " ++ toString v
  | .downCommitFailed v => "failed to commit down migration with version " ++ toString v
  | .checkQueryFailed v => "failed to check migration with version " ++ toString v
  | .checkScanFailed => "failed to scan version column"
  | .notMigrated v => "migration " ++ toString v ++ " is not migrated!"
  | .truncateFailed => "failed to truncate migrations"
  | .createRollbackFailed => "failed to rollback transaction!"
  | .createCommitFailed => "failed to commit transaction!"

/-- What a call of the runner returns: nil, an error, or a crash of the goroutine. -/
inductive Outcome where
  | ok
  | error (e : Err)
  | panic
deriving DecidableEq, Repr

/-- The function `isMigrationScriptsEmpty`: `len(s.migrations) == 0`. -/
def isMigrationScriptsEmpty (reg : Registry) : Bool :=
  decide (reg.keys.length = 0)

/-- The function `getLatestMigrationVersion`: `keys[len(keys)-1]` of the sorted keys,
`none` when the index is out of range. -/
def getLatestMigrationVersion (reg : Registry) : Option Int :=
  (sortedKeys reg).getLast?

/-- The first row of `SELECT version FROM migrations ORDER BY version DESC`, if any. -/
def firstDesc (rows : List Int) : Option Int :=
  (rows.insertionSort (· ≥ ·)).head?

/-- The function `getLatestMigrationVersionFromDatabase`. -/
def getLatestMigrationVersionFromDatabase (env : Env) (st : Store) :
    Except Err Int × Store :=
  let st1 := st.record [Call.selectLatest]
  if env.latestOk then
    match firstDesc st.rows with
    | none => (.ok 0, st1)
    | some v => if env.scanOk then (.ok v, st1) else (.error Err.latestScanFailed, st1)
  else (.error Err.latestQueryFailed, st1)

/-- The search `for i, key := range keys { if key == last { start = i + 1; break } }`,
started at index `i`; `start` is 0 when no key matches. -/
def findStart (last : Int) : List Int → Nat → Nat
  | [], _ => 0
  | key :: rest, i => if key = last then i + 1 else findStart last rest (i + 1)

/-- The slice `versions` of `Up` (lines 44 to 66). -/
def upVersions (reg : Registry) (last : Int) : List Int :=
  let keys := sortedKeys reg
  if last = 0 then keys else keys.drop (findStart last keys 0)

/-- The loop `for _, version := range versions` of `Up`. -/
def upLoop (env : Env) (reg : Registry) : List Int → Store → Outcome × Store
  | [], st => (Outcome.ok, st)
  | version :: rest, st =>
    match reg.index version with
    | none => (Outcome.panic, st)
    | some script =>
      if script.Up.length = 0 then (Outcome.error (Err.upBlank version), st)
      else
        let st1 := st.record [Call.begin, Call.txRawSql script.Up, Call.insert version]
        if env.rawOk script.Up && env.insertOk version then
          if env.commitOk version then
            upLoop env reg rest
              { rows := st1.rows ++ [version], calls := st1.calls ++ [Call.commit] }
          else (Outcome.error (Err.upCommitFailed version), st1.record [Call.commit])
        else if env.rollbackOk version then (Outcome.ok, st1.record [Call.rollback])
        else (Outcome.error (Err.upRollbackFailed version), st1.record [Call.rollback])


/-- The loop `for rows.Next() {...}` of `isAlreadyMigrated`, started with `total` rows
counted: the count, whether `Scan` failed, and whether the version was found. -/
def scanVersions (scanOk : Bool) (version : Int) : List Int → Nat → Nat × Bool × Bool
  | [], total => (total, false, false)
  | id :: rest, total =>
    if scanOk then
      if id = version then (total + 1, false, true)
      else scanVersions scanOk version rest (total + 1)
    else (total + 1, true, false)

/-- The function `isAlreadyMigrated`. -/
def isAlreadyMigrated (env : Env) (version : Int) (st : Store) : Outcome × Store :=
  let st1 := st.record [Call.selectVersions]
  if env.versionsOk then
    match scanVersions env.scanOk version st.rows 0 with
    | (total, failed, found) =>
      if total = 0 then (Outcome.error (Err.notMigrated version), st1)
      else if failed then (Outcome.error Err.checkScanFailed, st1)
      else if found then (Outcome.ok, st1)
      else (Outcome.error (Err.notMigrated version), st1)
  else (Outcome.error (Err.checkQueryFailed version), st1)

namespace sql

/-- The method `(*sql).Up`. -/
def Up (env : Env) (reg : Registry) (st : Store) : Outcome × Store :=
  let st1 := st.record [Call.probe]
  if env.probeOk then
    if isMigrationScriptsEmpty reg then (Outcome.ok, st1)
    else
      match getLatestMigrationVersionFromDatabase env st1 with
      | (.error e, st2) => (Outcome.error e, st2)
      | (.ok last, st2) =>
        match getLatestMigrationVersion reg with
        | none => (Outcome.panic, st2)
        | some top =>
          if last = top then (Outcome.ok, st2)
          else upLoop env reg (upVersions reg last) st2
  else (Outcome.error Err.tableNotFound, st1)

/-- The method `(*sql).Down`. -/
def Down (env : Env) (reg : Registry) (st : Store) : Outcome × Store :=
  let st1 := st.record [Call.probe]
  if env.probeOk then
    if isMigrationScriptsEmpty reg then (Outcome.ok, st1)
    else
      match getLatestMigrationVersionFromDatabase env st1 with
      | (.error e, st2) => (Outcome.error e, st2)
      | (.ok version, st2) =>
        if version = 0 then (Outcome.ok, st2)
        else
          match reg.index version with
          | none => (Outcome.panic, st2)
          | some script =>
            if script.Down.length = 0 then (Outcome.error (Err.downBlank version), st2)
            else
              let st3 := st2.record
                [Call.begin, Call.txRawSql script.Down, Call.delete version]
              if env.rawOk script.Down && env.deleteOk version then
                if env.commitOk version then
                  (Outcome.ok,
                    { rows := st3.rows.filter (fun r => decide (r < version)),
                      calls := st3.calls ++ [Call.commit] })
                else (Outcome.error (Err.downCommitFailed version), st3.record [Call.commit])
              else if env.rollbackOk version then (Outcome.ok, st3.record [Call.rollback])
              else (Outcome.error (Err.downRollbackFailed version),
                st3.record [Call.rollback])
  else (Outcome.error Err.tableNotFound, st1)

/-- The method `(*sql).Check`. -/
def Check (env : Env) (reg : Registry) (st : Store) : Outcome × Store :=
  let st1 := st.record [Call.probe]
  if env.probeOk then
    if isMigrationScriptsEmpty reg then (Outcome.ok, st1)
    else
      match getLatestMigrationVersion reg with
      | none => (Outcome.panic, st1)
      | some version => isAlreadyMigrated env version st1
  else (Outcome.error Err.tableNotFound, st1)

/-- The method `(*sql).Truncate`. -/
def Truncate (env : Env) (st : Store) : Outcome × Store :=
  let st1 := st.record [Call.probe]
  if env.probeOk then
    let st2 := st1.record [Call.truncate]
    if env.truncateOk then (Outcome.ok, { st2 with rows := [] })
    else (Outcome.error Err.truncateFailed, st2)
  else (Outcome.error Err.tableNotFound, st1)

/-- The method `(*sql).Initialize`. -/
def Initialize (env : Env) (st : Store) : Outcome × Store :=
  let st1 := st.record [Call.probe]
  if env.probeOk then (Outcome.ok, st1)
  else
    let st2 := st1.record [Call.begin, Call.createTable]
    if env.createOk then
      if env.createCommitOk then (Outcome.ok, st2.record [Call.commit])
      else (Outcome.error Err.createCommitFailed, st2.record [Call.commit])
    else if env.createRollbackOk then (Outcome.ok, st2.record [Call.rollback])
    else (Outcome.error Err.createRollbackFailed, st2.record [Call.rollback])

end sql

/-- The scripts passed to `tx.RawSql`, in call order. -/
def scriptsRun : List Call → List String
  | [] => []
  | Call.txRawSql q :: cs => q :: scriptsRun cs
  | _ :: cs => scriptsRun cs

/-- The versions passed to the tracking-row insert, in call order. -/
def insertsIssued : List Call → List Int
  | [] => []
  | Call.insert v :: cs => v :: insertsIssued cs
  | _ :: cs => insertsIssued cs

/-- An environment in which every call succeeds. -/
def Env.allOk : Env :=
  { probeOk := true, latestOk := true, versionsOk := true, scanOk := true,
    rawOk := fun _ => true, insertOk := fun _ => true, deleteOk := fun _ => true,
    commitOk := fun _ => true, rollbackOk := fun _ => true, truncateOk := true,
    createOk := true, createCommitOk := true, createRollbackOk := true }

/-- An environment in which the script `q` fails and every other call succeeds. -/
def Env.failing (q : String) : Env :=
  { Env.allOk with rawOk := fun s => decide (s ≠ q) }

/-- An environment in which the existence probe fails and every other call succeeds. -/
def Env.noTable : Env :=
  { Env.allOk with probeOk := false }

/-- An environment in which the script `q` and every rollback fail and every other call
succeeds. -/
def Env.failingHard (q : String) : Env :=
  { Env.allOk with rawOk := fun s => decide (s ≠ q), rollbackOk := fun _ => false }

/-- An empty tracking table on which no call has been made. -/
def Store.fresh : Store := { rows := [], calls := [] }

/-- The version `Up` and `Down` take as latest recorded when the read succeeds: the first
row in descending order, 0 when the table has no row. -/
def latestRecorded (rows : List Int) : Int :=
  (firstDesc rows).getD 0

/-- Version `v` goes through one round of the loop of `Up` and is committed: its script is
present and not blank, and the script, the insert and the commit succeed. -/
def applies (env : Env) (reg : Registry) (v : Int) : Bool :=
  match reg.index v with
  | none => false
  | some script =>
    decide (script.Up.length ≠ 0) && env.rawOk script.Up && env.insertOk v && env.commitOk v

/-- The calls of one committed round of the loop of `Up`. -/
def applyCalls (reg : Registry) (v : Int) : List Call :=
  match reg.index v with
  | none => []
  | some script => [Call.begin, Call.txRawSql script.Up, Call.insert v, Call.commit]

/-- The up script registered for a version (empty when there is none). -/
def upScript (reg : Registry) (v : Int) : String :=
  match reg.index v with
  | none => ""
  | some script => script.Up


/-! ## Document migration runner (`util/migration/nosql.go`)

The tracking collection is seen as the list of the `version` fields of its documents, in
insertion order.  A migration function is a Go function value: it is either nil or named
by a label, its result is given by the environment, and it is taken not to write to the
tracking collection itself.  The iteration order of the registry map is the order of
`NoSqlRegistry.keys`. -/

/-- The `NoSqlScript` struct of `definition.go`: each function is nil or has a label. -/
structure NoSqlScript where
  Up : Option String
  Down : Option String
deriving DecidableEq, Repr

/-- The registry `map[int]*NoSqlScript`. -/
abbrev NoSqlRegistry := List (Int × Option NoSqlScript)

/-- The value `m[k]` of the map: nil when the key is absent. -/
def NoSqlRegistry.index (reg : NoSqlRegistry) (k : Int) : Option NoSqlScript :=
  match reg.lookup k with
  | some p => p
  | none => none

/-- The keys of the map, each once, in iteration order. -/
def NoSqlRegistry.keys (reg : NoSqlRegistry) : List Int :=
  (reg.map Prod.fst).dedup

/-- The slice `keys` after `for k := range n.migrations {...}; sort.Ints(keys)`. -/
def sortedNoSqlKeys (reg : NoSqlRegistry) : List Int :=
  reg.keys.insertionSort (· ≤ ·)

/-- Calls made by the document runner on its collaborator and on migration functions. -/
inductive NoSqlCall where
  /-- The call `n.orm.Find("migrations", bson.D{}, callback, sort by version descending)`. -/
  | findSorted
  /-- The call `n.orm.Find("migrations", bson.D{}, callback)` of `Check`. -/
  | find
  /-- The call `script.Up(n.orm)` or `script.Down(n.orm)` of the function with the label. -/
  | run (fn : String)
  /-- The call `n.orm.Insert("migrations", &nosqlcollection{Version: version})`. -/
  | insert (version : Int)
  /-- The call `n.orm.DeleteMany("migrations", bson.D{{"version", version}})`. -/
  | deleteMany (version : Int)
  /-- The call `n.orm.DeleteMany("migrations", bson.D{})`. -/
  | deleteAll
deriving DecidableEq, Repr

/-- The tracking collection and the trace of calls. -/
structure NoSqlStore where
  docs : List Int
  calls : List NoSqlCall
deriving DecidableEq, Repr

/-- Append calls to the trace. -/
def NoSqlStore.record (st : NoSqlStore) (cs : List NoSqlCall) : NoSqlStore :=
  { st with calls := st.calls ++ cs }

/-- Outcomes of the calls of the document runner. -/
structure NoSqlEnv where
  /-- The call `Find` yields a cursor. -/
  findOk : Bool
  /-- The call `cursor.Decode` succeeds. -/
  decodeOk : Bool
  /-- The migration function with the label returns nil. -/
  fnOk : String → Bool
  /-- The insert of the tracking document succeeds. -/
  insertOk : Int → Bool
  /-- The delete of the tracking documents of a version succeeds. -/
  deleteOk : Int → Bool
  /-- The delete of all tracking documents succeeds. -/
  deleteAllOk : Bool

/-- Errors returned by the document runner. -/
inductive NoSqlErr where
  | findFailed
  | decodeFailed
  | upFailed (version : Int)
  | upInsertFailed (version : Int)
  | downFailed (version : Int)
  | downDeleteFailed (version : Int)
  | checkFailed
  | notMigrated (versions : List Int)
  | truncateFailed
  | notImplemented
deriving DecidableEq, Repr

/-- The text `fmt.Sprintf("%v", versions)` of a slice of integers. -/
def sliceText (versions : List Int) : String :=
  "[" ++ " ".intercalate (versions.map toString) ++ "]"

/-- The text of the error built by the document runner (for a wrapped error, the text it
adds). -/
def NoSqlErr.message : NoSqlErr → String
  | .findFailed => ""
  | .decodeFailed => ""
  | .upFailed v => "failed to execute migration " ++ toString v
  | .upInsertFailed v => "failed to execute migration " ++ toString v
  | .downFailed v => "failed to execute migration down script with version " ++ toString v
  | .downDeleteFailed v =>
    "failed to execute migration down script with version " ++ toString v
  | .checkFailed => "failed to iterate cursor!"
  | .notMigrated vs => "migration with version " ++ sliceText vs ++ " is not migrated!"
  | .truncateFailed => "failed to truncate nosql migrations collection"
  | .notImplemented => "initialize not implemented in nosql!"

/-- What a call of the document runner returns: nil, an error, or a crash. -/
inductive NoSqlOutcome where
  | ok
  | error (e : NoSqlErr)
  | panic
deriving DecidableEq, Repr

/-- The function `isNoSqlMigrationsEmpty`: `len(n.migrations) == 0`. -/
def isNoSqlMigrationsEmpty (reg : NoSqlRegistry) : Bool :=
  decide (reg.keys.length = 0)

/-- The function `getLatestNoSqlMigrationVersion`: `keys[len(keys)-1]` of the sorted
keys, `none` when the index is out of range. -/
def getLatestNoSqlMigrationVersion (reg : NoSqlRegistry) : Option Int :=
  (sortedNoSqlKeys reg).getLast?

/-- The function `contains`. -/
def contains (value : Int) : List Int → Bool
  | [] => false
  | element :: rest => if value = element then true else contains value rest

/-- The call of `Find` sorted by version descending with the callback of `Up` and `Down`:
the slice `migrated`, or the error. -/
def findMigrated (env : NoSqlEnv) (st : NoSqlStore) :
    Except NoSqlErr (List Int) × NoSqlStore :=
  let st1 := st.record [NoSqlCall.findSorted]
  if env.findOk then
    match st.docs.insertionSort (· ≥ ·) with
    | [] => (.ok [], st1)
    | v :: vs =>
      if env.decodeOk then (.ok (v :: vs), st1) else (.error NoSqlErr.decodeFailed, st1)
  else (.error NoSqlErr.findFailed, st1)

/-- The value `migrated[0].Version`, 0 when `migrated` is empty. -/
def firstVersion : List Int → Int
  | [] => 0
  | v :: _ => v

/-- The search `for i, key := range keys { if key > last { start = i; break } }` of the
document `Up`, started at index `i`; `start` is 0 when no key is greater. -/
def findStartGreater (last : Int) : List Int → Nat → Nat
  | [], _ => 0
  | key :: rest, i => if key > last then i else findStartGreater last rest (i + 1)

/-- The slice `versions` of the document `Up` (lines 64 to 89). -/
def noSqlUpVersions (reg : NoSqlRegistry) (last : Int) : List Int :=
  let keys := sortedNoSqlKeys reg
  if last = 0 then keys
  else
    let start := findStartGreater last keys 0
    if start ≠ 0 then keys.drop start else []

/-- The loop `for _, version := range versions` of the document `Up`. -/
def noSqlUpLoop (env : NoSqlEnv) (reg : NoSqlRegistry) :
    List Int → NoSqlStore → NoSqlOutcome × NoSqlStore
  | [], st => (NoSqlOutcome.ok, st)
  | version :: rest, st =>
    match reg.index version with
    | none => (NoSqlOutcome.panic, st)
    | some script =>
      match script.Up with
      | none => (NoSqlOutcome.panic, st)
      | some fn =>
        let st1 := st.record [NoSqlCall.run fn]
        if env.fnOk fn then
          let st2 := st1.record [NoSqlCall.insert version]
          if env.insertOk version then
            noSqlUpLoop env reg rest { docs := st2.docs ++ [version], calls := st2.calls }
          else (NoSqlOutcome.error (NoSqlErr.upInsertFailed version), st2)
        else (NoSqlOutcome.error (NoSqlErr.upFailed version), st1)

namespace nosql

/-- The method `(*nosql).Up`. -/
def Up (env : NoSqlEnv) (reg : NoSqlRegistry) (st : NoSqlStore) :
    NoSqlOutcome × NoSqlStore :=
  if isNoSqlMigrationsEmpty reg then (NoSqlOutcome.ok, st)
  else
    match findMigrated env st with
    | (.error e, st1) => (NoSqlOutcome.error e, st1)
    | (.ok migrated, st1) =>
      match getLatestNoSqlMigrationVersion reg with
      | none => (NoSqlOutcome.panic, st1)
      | some _ => noSqlUpLoop env reg (noSqlUpVersions reg (firstVersion migrated)) st1

/-- The method `(*nosql).Down`. -/
def Down (env : NoSqlEnv) (reg : NoSqlRegistry) (st : NoSqlStore) :
    NoSqlOutcome × NoSqlStore :=
  if isNoSqlMigrationsEmpty reg then (NoSqlOutcome.ok, st)
  else
    match findMigrated env st with
    | (.error e, st1) => (NoSqlOutcome.error e, st1)
    | (.ok migrated, st1) =>
      if firstVersion migrated = 0 then (NoSqlOutcome.ok, st1)
      else
        match reg.index (firstVersion migrated) with
        | none => (NoSqlOutcome.panic, st1)
        | some script =>
          match script.Down with
          | none => (NoSqlOutcome.panic, st1)
          | some fn =>
            let st2 := st1.record [NoSqlCall.run fn]
            if env.fnOk fn then
              let st3 := st2.record [NoSqlCall.deleteMany (firstVersion migrated)]
              if env.deleteOk (firstVersion migrated) then
                (NoSqlOutcome.ok,
                  { docs := st3.docs.filter (fun d => decide (d ≠ firstVersion migrated)),
                    calls := st3.calls })
              else
                (NoSqlOutcome.error (NoSqlErr.downDeleteFailed (firstVersion migrated)), st3)
            else (NoSqlOutcome.error (NoSqlErr.downFailed (firstVersion migrated)), st2)

/-- The method `(*nosql).Check`. -/
def Check (env : NoSqlEnv) (reg : NoSqlRegistry) (st : NoSqlStore) :
    NoSqlOutcome × NoSqlStore :=
  if isNoSqlMigrationsEmpty reg then (NoSqlOutcome.ok, st)
  else
    let versions := reg.keys
    let st1 := st.record [NoSqlCall.find]
    if env.findOk && (st.docs.isEmpty || env.decodeOk) then
      let migrated := st.docs
      if migrated.length = 0 ∧ versions.length ≠ 0 then
        (NoSqlOutcome.error (NoSqlErr.notMigrated versions), st1)
      else
        let notMigrated := versions.filter (fun v => !contains v migrated)
        if notMigrated.length > 0 then
          (NoSqlOutcome.error (NoSqlErr.notMigrated notMigrated), st1)
        else (NoSqlOutcome.ok, st1)
    else (NoSqlOutcome.error NoSqlErr.checkFailed, st1)

/-- The method `(*nosql).Truncate`. -/
def Truncate (env : NoSqlEnv) (st : NoSqlStore) : NoSqlOutcome × NoSqlStore :=
  let st1 := st.record [NoSqlCall.deleteAll]
  if env.deleteAllOk then (NoSqlOutcome.ok, { st1 with docs := [] })
  else (NoSqlOutcome.error NoSqlErr.truncateFailed, st1)

/-- The method `(*nosql).Initialize`. -/
def Initialize (st : NoSqlStore) : NoSqlOutcome × NoSqlStore :=
  (NoSqlOutcome.error NoSqlErr.notImplemented, st)

end nosql

/-- The labels of the migration functions called, in call order. -/
def functionsRun : List NoSqlCall → List String
  | [] => []
  | NoSqlCall.run fn :: cs => fn :: functionsRun cs
  | _ :: cs => functionsRun cs

/-- The versions passed to the insert of a tracking document, in call order. -/
def documentsInserted : List NoSqlCall → List Int
  | [] => []
  | NoSqlCall.insert v :: cs => v :: documentsInserted cs
  | _ :: cs => documentsInserted cs

/-- An environment of the document runner in which every call succeeds. -/
def NoSqlEnv.allOk : NoSqlEnv :=
  { findOk := true, decodeOk := true, fnOk := fun _ => true, insertOk := fun _ => true,
    deleteOk := fun _ => true, deleteAllOk := true }

/-- An environment in which the function labelled `f` fails and every other call
succeeds. -/
def NoSqlEnv.failing (f : String) : NoSqlEnv :=
  { NoSqlEnv.allOk with fnOk := fun s => decide (s ≠ f) }

/-- Version `v` goes through one round of the loop of the document `Up`: its script and
up function are present, and the function and the insert succeed. -/
def noSqlApplies (env : NoSqlEnv) (reg : NoSqlRegistry) (v : Int) : Bool :=
  match reg.index v with
  | none => false
  | some script =>
    match script.Up with
    | none => false
    | some fn => env.fnOk fn && env.insertOk v

/-- The calls of one completed round of the loop of the document `Up`. -/
def noSqlApplyCalls (reg : NoSqlRegistry) (v : Int) : List NoSqlCall :=
  match reg.index v with
  | none => []
  | some script =>
    match script.Up with
    | none => []
    | some fn => [NoSqlCall.run fn, NoSqlCall.insert v]

/-- The label of the up function registered for a version (empty when there is none). -/
def upFunction (reg : NoSqlRegistry) (v : Int) : String :=
  match reg.index v with
  | none => ""
  | some script => script.Up.getD ""

/-! ## The returned pair of the latest-version read, and the constructors -/

/-- The pair `(version, err)` returned by `getLatestMigrationVersionFromDatabase` on a
table with the given rows: both error returns are `return 0, errors.Wrap(err, ...)`. -/
def latestVersionReturned (env : Env) (rows : List Int) : Int × Option Err :=
  if env.latestOk then
    match firstDesc rows with
    | none => (0, none)
    | some v => if env.scanOk then (v, none) else (0, some Err.latestScanFailed)
  else (0, some Err.latestQueryFailed)

/-- The struct `sql` of `definition.go`, for a store handle of type `O` and a logger of
type `L`; a nil map is the registry `none`. -/
structure SqlTool (O L : Type) where
  orm : O
  migrations : Option Registry
  logger : L

/-- The struct `nosql` of `definition.go`. -/
structure NoSqlTool (O L : Type) where
  orm : O
  migrations : Option NoSqlRegistry
  logger : L

/-- The function `NewSqlMigration`; a nil interface value is `none`, and the result is
the runner or the text of the error. -/
def NewSqlMigration {O L : Type} (orm : Option O) (migrations : Option Registry)
    (logger : Option L) : Except String (SqlTool O L) :=
  match orm with
  | none => .error "orm is required!"
  | some o =>
    match logger with
    | none => .error "logger is required!"
    | some l => .ok { orm := o, migrations := migrations, logger := l }

/-- The function `NewNoSqlMigration`. -/
def NewNoSqlMigration {O L : Type} (mongo : Option O) (migrations : Option NoSqlRegistry)
    (logger : Option L) : Except String (NoSqlTool O L) :=
  match mongo with
  | none => .error "mongo is required!"
  | some o =>
    match logger with
    | none => .error "logger is required!"
    | some l => .ok { orm := o, migrations := migrations, logger := l }

/-- An environment in which the table cannot be queried for its latest version. -/
def Env.unreadable : Env :=
  { Env.allOk with latestOk := false }

/-! ## Keys of the registry -/

theorem sortedKeys_sorted (reg : Registry) : (sortedKeys reg).Sorted (· < ·) := by
  unfold sortedKeys
  apply List.Sorted.lt_of_le (List.sorted_insertionSort _ _)
  exact (List.perm_insertionSort _ _).nodup_iff.mpr (List.nodup_dedup _)

theorem mem_sortedKeys {reg : Registry} {k : Int} : k ∈ sortedKeys reg ↔ k ∈ reg.keys :=
  (List.perm_insertionSort _ _).mem_iff

theorem sortedKeys_ne_nil {reg : Registry} (h : isMigrationScriptsEmpty reg = false) :
    sortedKeys reg ≠ [] := by
  intro hnil
  have hlen : (sortedKeys reg).length = reg.keys.length :=
    (List.perm_insertionSort _ _).length_eq
  simp [isMigrationScriptsEmpty] at h
  rw [hnil] at hlen
  exact h (List.length_eq_zero.mp hlen.symm)

theorem getLast?_sorted_iff {l : List Int} (hs : l.Sorted (· < ·)) (M : Int) :
    l.getLast? = some M ↔ M ∈ l ∧ ∀ k ∈ l, k ≤ M := by
  constructor
  · intro h
    obtain ⟨ys, rfl⟩ := List.getLast?_eq_some_iff.mp h
    have hp := (List.pairwise_append.mp hs).2.2
    refine ⟨by simp, ?_⟩
    intro k hk
    rcases List.mem_append.mp hk with hk | hk
    · exact le_of_lt (hp k hk M (by simp))
    · simp at hk; omega
  · rintro ⟨hM, hle⟩
    have hne : l ≠ [] := List.ne_nil_of_mem hM
    rw [List.getLast?_eq_getLast l hne]
    have hdec := List.dropLast_append_getLast hne
    have hlast := hle _ (List.getLast_mem hne)
    rw [← hdec] at hs hM
    have hp := (List.pairwise_append.mp hs).2.2
    rcases List.mem_append.mp hM with hM | hM
    · have := hp M hM (l.getLast hne) (by simp)
      omega
    · simp at hM; simp [hM]

/-- The maximum key read by `getLatestMigrationVersion` is the greatest key. -/
theorem getLatestMigrationVersion_eq_some {reg : Registry} {M : Int} :
    getLatestMigrationVersion reg = some M ↔ M ∈ reg.keys ∧ ∀ k ∈ reg.keys, k ≤ M := by
  unfold getLatestMigrationVersion
  rw [getLast?_sorted_iff (sortedKeys_sorted reg)]
  simp only [mem_sortedKeys]

/-! ## The latest recorded version -/

theorem firstDesc_eq_none {rows : List Int} : firstDesc rows = none ↔ rows = [] := by
  unfold firstDesc
  rw [List.head?_eq_none_iff]
  constructor
  · intro h
    have := (List.perm_insertionSort (· ≥ ·) rows).length_eq
    rw [h] at this
    exact List.length_eq_zero.mp this.symm
  · rintro rfl; rfl

theorem firstDesc_eq_some {rows : List Int} {v : Int} :
    firstDesc rows = some v ↔ v ∈ rows ∧ ∀ r ∈ rows, r ≤ v := by
  unfold firstDesc
  have hs : (rows.insertionSort (· ≥ ·)).Sorted (· ≥ ·) := List.sorted_insertionSort _ _
  have hmem : ∀ x, x ∈ rows.insertionSort (· ≥ ·) ↔ x ∈ rows :=
    fun x => (List.perm_insertionSort _ _).mem_iff
  constructor
  · intro h
    obtain ⟨ys, hys⟩ := List.head?_eq_some_iff.mp h
    rw [hys] at hs
    refine ⟨(hmem v).mp (by simp [hys]), ?_⟩
    intro r hr
    have hr2 := (hmem r).mpr hr
    rw [hys] at hr2
    rcases List.mem_cons.mp hr2 with rfl | hr2
    · exact le_refl _
    · exact (List.pairwise_cons.mp hs).1 r hr2
  · rintro ⟨hv, hle⟩
    cases hsort : rows.insertionSort (· ≥ ·) with
    | nil =>
      have := (hmem v).mpr hv
      rw [hsort] at this
      simp at this
    | cons a as =>
      rw [hsort] at hs
      have ha : a ∈ rows := (hmem a).mp (by simp [hsort])
      have hv2 := (hmem v).mpr hv
      rw [hsort] at hv2
      have h1 : a ≤ v := hle a ha
      have h2 : v ≤ a := by
        rcases List.mem_cons.mp hv2 with rfl | hv2
        · exact le_refl _
        · exact (List.pairwise_cons.mp hs).1 v hv2
      simp
      omega

theorem latestRecorded_nil : latestRecorded [] = 0 := rfl

theorem latestRecorded_of_max {rows : List Int} {v : Int} (hv : v ∈ rows)
    (hle : ∀ r ∈ rows, r ≤ v) : latestRecorded rows = v := by
  unfold latestRecorded
  rw [firstDesc_eq_some.mpr ⟨hv, hle⟩]
  rfl

theorem latestRecorded_mem {rows : List Int} (h : rows ≠ []) :
    latestRecorded rows ∈ rows ∧ ∀ r ∈ rows, r ≤ latestRecorded rows := by
  cases hf : firstDesc rows with
  | none => exact absurd (firstDesc_eq_none.mp hf) h
  | some v =>
    have := firstDesc_eq_some.mp hf
    simpa [latestRecorded, hf] using this

/-- With a successful query and scan, the read returns the latest recorded version. -/
theorem getLatest_ok {env : Env} (st : Store) (hq : env.latestOk = true)
    (hs : st.rows ≠ [] → env.scanOk = true) :
    getLatestMigrationVersionFromDatabase env st
      = (.ok (latestRecorded st.rows), st.record [Call.selectLatest]) := by
  unfold getLatestMigrationVersionFromDatabase latestRecorded
  cases hf : firstDesc st.rows with
  | none => simp [hq]
  | some v =>
    have hne : st.rows ≠ [] := fun h => by simp [firstDesc_eq_none.mpr h] at hf
    simp [hq, hs hne]

/-- The read leaves the rows alone and adds one call to the trace. -/
theorem getLatest_store (env : Env) (st : Store) :
    (getLatestMigrationVersionFromDatabase env st).2 = st.record [Call.selectLatest] := by
  unfold getLatestMigrationVersionFromDatabase
  cases env.latestOk <;> cases firstDesc st.rows <;> cases env.scanOk <;> rfl

/-- Past the guards, `Up` either stops on the maximum key or runs the loop. -/
theorem Up_of_reads {env : Env} {reg : Registry} (st : Store)
    (hprobe : env.probeOk = true) (hreg : isMigrationScriptsEmpty reg = false)
    (hq : env.latestOk = true) (hs : st.rows ≠ [] → env.scanOk = true) :
    sql.Up env reg st =
      if getLatestMigrationVersion reg = some (latestRecorded st.rows) then
        (Outcome.ok, st.record [Call.probe, Call.selectLatest])
      else upLoop env reg (upVersions reg (latestRecorded st.rows))
        (st.record [Call.probe, Call.selectLatest]) := by
  have hrec : (st.record [Call.probe]).record [Call.selectLatest]
      = st.record [Call.probe, Call.selectLatest] := by simp [Store.record]
  have hget := @getLatest_ok env (st.record [Call.probe]) hq hs
  rw [hrec] at hget
  have hrows : (st.record [Call.probe]).rows = st.rows := rfl
  rw [hrows] at hget
  unfold sql.Up
  simp only [hprobe, hreg, if_true, hget]
  cases htop : getLatestMigrationVersion reg with
  | none =>
    exact absurd (List.getLast?_eq_none_iff.mp htop) (sortedKeys_ne_nil hreg)
  | some top =>
    by_cases h : latestRecorded st.rows = top
    · simp [h]
    · have h2 : ¬ top = latestRecorded st.rows := fun e => h e.symm
      simp [h, h2]


/-! ## The loop of `Up` -/

theorem applies_iff {env : Env} {reg : Registry} {v : Int} :
    applies env reg v = true ↔
      ∃ sc, reg.index v = some sc ∧ sc.Up.length ≠ 0 ∧ env.rawOk sc.Up = true ∧
        env.insertOk v = true ∧ env.commitOk v = true := by
  unfold applies
  cases h : reg.index v with
  | none => simp
  | some sc => simp [and_assoc]

/-- Rounds that apply are committed one after the other. -/
theorem upLoop_append_of_applies (env : Env) (reg : Registry) (pre rest : List Int)
    (st : Store) (h : ∀ v ∈ pre, applies env reg v = true) :
    upLoop env reg (pre ++ rest) st
      = upLoop env reg rest
          { rows := st.rows ++ pre, calls := st.calls ++ pre.flatMap (applyCalls reg) } := by
  induction pre generalizing st with
  | nil => simp
  | cons v vs ih =>
    obtain ⟨sc, hsc, hlen, hraw, hins, hcom⟩ := applies_iff.mp (h v (by simp))
    have hvs : ∀ w ∈ vs, applies env reg w = true := fun w hw => h w (by simp [hw])
    rw [List.cons_append, upLoop]
    simp only [hsc, hlen, hraw, hins, hcom, if_false, if_true, Bool.and_self, Store.record]
    rw [ih _ hvs]
    simp [applyCalls, hsc]

/-- The rows after the loop: the versions up to the first one that does not apply. -/
theorem upLoop_rows (env : Env) (reg : Registry) (vs : List Int) (st : Store) :
    (upLoop env reg vs st).2.rows = st.rows ++ vs.takeWhile (applies env reg) := by
  induction vs generalizing st with
  | nil => simp [upLoop]
  | cons v vs ih =>
    rw [upLoop]
    cases hsc : reg.index v with
    | none => simp [applies, hsc]
    | some sc =>
      by_cases hlen : sc.Up.length = 0
      · simp [applies, hsc, hlen]
      · by_cases hok : (env.rawOk sc.Up && env.insertOk v) = true
        · by_cases hcom : env.commitOk v = true
          · have happ : applies env reg v = true := by
              simp only [Bool.and_eq_true] at hok
              exact applies_iff.mpr ⟨sc, hsc, hlen, hok.1, hok.2, hcom⟩
            simp only [hlen, hok, hcom, if_false, if_true]
            rw [ih]
            simp [List.takeWhile_cons, happ, Store.record]
          · have happ : applies env reg v = false := by
              simp [applies, hsc, hcom]
            simp [hlen, hok, hcom, List.takeWhile_cons, happ, Store.record]
        · have happ : applies env reg v = false := by
            simp only [Bool.and_eq_true, not_and_or] at hok
            rcases hok with h1 | h1 <;> simp [applies, hsc, h1]
          by_cases hrb : env.rollbackOk v = true <;>
            simp [hlen, hok, hrb, List.takeWhile_cons, happ, Store.record]

theorem scriptsRun_append (a b : List Call) :
    scriptsRun (a ++ b) = scriptsRun a ++ scriptsRun b := by
  induction a with
  | nil => rfl
  | cons c cs ih => cases c <;> simp [scriptsRun, ih]

theorem insertsIssued_append (a b : List Call) :
    insertsIssued (a ++ b) = insertsIssued a ++ insertsIssued b := by
  induction a with
  | nil => rfl
  | cons c cs ih => cases c <;> simp [insertsIssued, ih]

theorem scriptsRun_applyCalls (reg : Registry) (vs : List Int)
    (h : ∀ v ∈ vs, ∃ sc, reg.index v = some sc) :
    scriptsRun (vs.flatMap (applyCalls reg)) = vs.map (upScript reg) := by
  induction vs with
  | nil => rfl
  | cons v vs ih =>
    obtain ⟨sc, hsc⟩ := h v (by simp)
    have hvs : ∀ w ∈ vs, ∃ sc, reg.index w = some sc := fun w hw => h w (by simp [hw])
    simp [List.flatMap_cons, scriptsRun_append, ih hvs, applyCalls, upScript, hsc, scriptsRun]

theorem insertsIssued_applyCalls (reg : Registry) (vs : List Int)
    (h : ∀ v ∈ vs, ∃ sc, reg.index v = some sc) :
    insertsIssued (vs.flatMap (applyCalls reg)) = vs := by
  induction vs with
  | nil => rfl
  | cons v vs ih =>
    obtain ⟨sc, hsc⟩ := h v (by simp)
    have hvs : ∀ w ∈ vs, ∃ sc, reg.index w = some sc := fun w hw => h w (by simp [hw])
    simp [List.flatMap_cons, insertsIssued_append, ih hvs, applyCalls, hsc, insertsIssued]



/-! ## Claims on the relational runner -/

/-- C1 (as stated, refuted): a registry whose only key is 0, with a non-empty up script,
on an existing empty tracking table where every call succeeds: `Up` returns success but
runs nothing and the table stays empty, while the registry has the key 0. -/
theorem C1_full_apply_fails_at_key_zero :
    isMigrationScriptsEmpty [(0, some ⟨"CREATE TABLE t(x int)", "DROP TABLE t"⟩)] = false ∧
    sortedKeys [(0, some ⟨"CREATE TABLE t(x int)", "DROP TABLE t"⟩)] = [0] ∧
    sql.Up Env.allOk [(0, some ⟨"CREATE TABLE t(x int)", "DROP TABLE t"⟩)] Store.fresh
      = (Outcome.ok, { rows := [], calls := [Call.probe, Call.selectLatest] }) := by
  decide

/-- C1 (amended): for a non-empty registry whose greatest key is not 0 and whose entries
all carry a non-empty up script, started on an empty tracking table where the probe, the
read and every statement and commit succeed, `Up` returns success, the table then holds
the keys of the registry in ascending order, each once, and the scripts run and the rows
inserted are one per key in that order. -/
theorem C1_up_full_apply (env : Env) (reg : Registry) (st : Store)
    (hreg : isMigrationScriptsEmpty reg = false)
    (htop : getLatestMigrationVersion reg ≠ some 0)
    (hscripts : ∀ k ∈ reg.keys, ∃ sc, reg.index k = some sc ∧ sc.Up.length ≠ 0)
    (hempty : st.rows = [])
    (hprobe : env.probeOk = true) (hlatest : env.latestOk = true)
    (hraw : ∀ q, env.rawOk q = true) (hins : ∀ v, env.insertOk v = true)
    (hcommit : ∀ v, env.commitOk v = true) :
    (sql.Up env reg st).1 = Outcome.ok ∧
    (sql.Up env reg st).2.rows = sortedKeys reg ∧
    (sortedKeys reg).Sorted (· < ·) ∧
    (∀ k, k ∈ (sql.Up env reg st).2.rows ↔ k ∈ reg.keys) ∧
    scriptsRun (sql.Up env reg st).2.calls
      = scriptsRun st.calls ++ (sortedKeys reg).map (upScript reg) ∧
    insertsIssued (sql.Up env reg st).2.calls = insertsIssued st.calls ++ sortedKeys reg := by
  have happ : ∀ v ∈ sortedKeys reg, applies env reg v = true := by
    intro v hv
    obtain ⟨sc, hsc, hlen⟩ := hscripts v (mem_sortedKeys.mp hv)
    exact applies_iff.mpr ⟨sc, hsc, hlen, hraw _, hins _, hcommit _⟩
  have hidx : ∀ v ∈ sortedKeys reg, ∃ sc, reg.index v = some sc := by
    intro v hv
    obtain ⟨sc, hsc, _⟩ := hscripts v (mem_sortedKeys.mp hv)
    exact ⟨sc, hsc⟩
  have hup : sql.Up env reg st
      = (Outcome.ok,
          { rows := sortedKeys reg,
            calls := st.calls ++ [Call.probe, Call.selectLatest]
              ++ (sortedKeys reg).flatMap (applyCalls reg) }) := by
    rw [Up_of_reads st hprobe hreg hlatest (fun h => absurd hempty h)]
    rw [hempty, latestRecorded_nil, if_neg htop]
    have h := upLoop_append_of_applies env reg (sortedKeys reg) []
      (st.record [Call.probe, Call.selectLatest]) happ
    rw [List.append_nil] at h
    rw [show upVersions reg 0 = sortedKeys reg by simp [upVersions], h]
    simp [upLoop, Store.record, hempty]
  rw [hup]
  refine ⟨rfl, rfl, sortedKeys_sorted reg, fun k => mem_sortedKeys, ?_, ?_⟩
  · simp [scriptsRun_append, scriptsRun, scriptsRun_applyCalls reg _ hidx]
  · simp [insertsIssued_append, insertsIssued, insertsIssued_applyCalls reg _ hidx]

/-- C1 (amended), at the scenario of the specification: the registry with versions 1 and
2 on an empty table. -/
theorem C1_up_full_apply_witness :
    (sql.Up Env.allOk
        [(1, some ⟨"CREATE TABLE t(x int)", "DROP TABLE t"⟩),
         (2, some ⟨"ALTER TABLE t ADD y int", "ALTER TABLE t DROP COLUMN y"⟩)]
        Store.fresh).2.rows = [1, 2] :=
  (C1_up_full_apply Env.allOk
    [(1, some ⟨"CREATE TABLE t(x int)", "DROP TABLE t"⟩),
     (2, some ⟨"ALTER TABLE t ADD y int", "ALTER TABLE t DROP COLUMN y"⟩)]
    Store.fresh (by decide) (by decide) (by decide) rfl rfl rfl
    (fun _ => rfl) (fun _ => rfl) (fun _ => rfl)).2.1


theorem upVersions_sorted (reg : Registry) (last : Int) :
    (upVersions reg last).Sorted (· < ·) := by
  unfold upVersions
  by_cases h : last = 0
  · simpa [h] using sortedKeys_sorted reg
  · simpa [h] using (sortedKeys_sorted reg).sublist (List.drop_sublist _ _)

theorem mem_sortedKeys_of_mem_upVersions {reg : Registry} {last v : Int}
    (h : v ∈ upVersions reg last) : v ∈ sortedKeys reg := by
  unfold upVersions at h
  by_cases h0 : last = 0
  · simpa [h0] using h
  · simp only [h0, if_false] at h
    exact List.mem_of_mem_drop h

theorem filter_lt_of_sorted_split {pre post : List Int} {N : Int}
    (hs : (pre ++ N :: post).Sorted (· < ·)) :
    (pre ++ N :: post).filter (fun v => decide (v < N)) = pre := by
  obtain ⟨_, h2, h3⟩ := List.pairwise_append.mp hs
  have h4 := (List.pairwise_cons.mp h2).1
  rw [List.filter_append]
  have hpre : pre.filter (fun v => decide (v < N)) = pre :=
    List.filter_eq_self.mpr (fun a ha => by simpa using h3 a ha N (by simp))
  have hpost : (N :: post).filter (fun v => decide (v < N)) = [] := by
    apply List.filter_eq_nil_iff.mpr
    intro a ha
    rcases List.mem_cons.mp ha with rfl | ha
    · simp
    · have := h4 a ha
      simp only [decide_eq_true_eq]
      omega
  rw [hpre, hpost, List.append_nil]

/-- One round of the loop on a version whose script or insert fails. -/
theorem upLoop_cons_of_fails (env : Env) (reg : Registry) (N : Int) (post : List Int)
    (st : Store) (sc : Script) (hsc : reg.index N = some sc) (hlen : sc.Up.length ≠ 0)
    (hfail : env.rawOk sc.Up = false ∨ env.insertOk N = false) :
    upLoop env reg (N :: post) st
      = (if env.rollbackOk N = true then Outcome.ok
          else Outcome.error (Err.upRollbackFailed N),
         st.record [Call.begin, Call.txRawSql sc.Up, Call.insert N, Call.rollback]) := by
  have hand : (env.rawOk sc.Up && env.insertOk N) = false := by
    rcases hfail with h | h <;> simp [h]
  rw [upLoop]
  by_cases hrb : env.rollbackOk N = true <;> simp [hsc, hlen, hand, hrb, Store.record]

/-- C2: in a run of `Up` (probe and read succeeding, not stopped on the maximum key) in
which the target versions smaller than N apply and, at target version N, the up script or
the insert of the tracking row fails and the rollback succeeds: the table afterwards is
the prior rows followed by exactly the target versions smaller than N; no row for N or
for any larger version has been added; and the transactions opened and scripts run are
those of the smaller target versions and of N, none of a larger version. -/
theorem C2_up_failure_at_version (env : Env) (reg : Registry) (st : Store) (N : Int)
    (sc : Script)
    (hprobe : env.probeOk = true) (hlatest : env.latestOk = true)
    (hscan : st.rows ≠ [] → env.scanOk = true)
    (htop : getLatestMigrationVersion reg ≠ some (latestRecorded st.rows))
    (hN : N ∈ upVersions reg (latestRecorded st.rows))
    (hbefore : ∀ v ∈ upVersions reg (latestRecorded st.rows), v < N →
      applies env reg v = true)
    (hsc : reg.index N = some sc) (hlen : sc.Up.length ≠ 0)
    (hfail : env.rawOk sc.Up = false ∨ env.insertOk N = false)
    (hrb : env.rollbackOk N = true) :
    (sql.Up env reg st).2.rows
      = st.rows ++ (upVersions reg (latestRecorded st.rows)).filter (fun v => decide (v < N)) ∧
    (∀ v, N ≤ v → (sql.Up env reg st).2.rows.count v = st.rows.count v) ∧
    insertsIssued (sql.Up env reg st).2.calls
      = insertsIssued st.calls
        ++ (upVersions reg (latestRecorded st.rows)).filter (fun v => decide (v < N))
        ++ [N] ∧
    scriptsRun (sql.Up env reg st).2.calls
      = scriptsRun st.calls
        ++ ((upVersions reg (latestRecorded st.rows)).filter
            (fun v => decide (v < N))).map (upScript reg)
        ++ [sc.Up] := by
  have hreg : isMigrationScriptsEmpty reg = false := by
    have hk := mem_sortedKeys.mp (mem_sortedKeys_of_mem_upVersions hN)
    have : reg.keys ≠ [] := List.ne_nil_of_mem hk
    simpa [isMigrationScriptsEmpty] using this
  obtain ⟨pre, post, hsplit⟩ := List.append_of_mem hN
  have hsorted := upVersions_sorted reg (latestRecorded st.rows)
  rw [hsplit] at hsorted hbefore
  have hfilter := filter_lt_of_sorted_split hsorted
  have hpre_lt : ∀ a ∈ pre, a < N := fun a ha =>
    (List.pairwise_append.mp hsorted).2.2 a ha N (by simp)
  have hpre : ∀ v ∈ pre, applies env reg v = true := fun v hv =>
    hbefore v (by simp [hv]) (hpre_lt v hv)
  have hidx : ∀ v ∈ pre, ∃ s, reg.index v = some s := fun v hv => by
    obtain ⟨s, hs, _⟩ := applies_iff.mp (hpre v hv)
    exact ⟨s, hs⟩
  have hup : sql.Up env reg st
      = (Outcome.ok,
          { rows := st.rows ++ pre,
            calls := st.calls ++ [Call.probe, Call.selectLatest]
              ++ pre.flatMap (applyCalls reg)
              ++ [Call.begin, Call.txRawSql sc.Up, Call.insert N, Call.rollback] }) := by
    rw [Up_of_reads st hprobe hreg hlatest hscan, if_neg htop, hsplit,
      upLoop_append_of_applies env reg pre (N :: post) _ hpre,
      upLoop_cons_of_fails env reg N post _ sc hsc hlen hfail]
    simp [hrb, Store.record]
  rw [hup, hsplit, hfilter]
  refine ⟨rfl, ?_, ?_, ?_⟩
  · intro v hv
    have : v ∉ pre := fun hmem => by
      have := hpre_lt v hmem
      omega
    simp [List.count_append, List.count_eq_zero_of_not_mem this]
  · simp [insertsIssued_append, insertsIssued, insertsIssued_applyCalls reg _ hidx]
  · simp [scriptsRun_append, scriptsRun, scriptsRun_applyCalls reg _ hidx]

/-- C2 at property P2 of the specification: versions 1, 2, 3 on an empty table with the
script of version 2 failing leave version 1 recorded and versions 2 and 3 absent. -/
theorem C2_up_failure_at_version_witness :
    (sql.Up (Env.failing "u2")
      [(1, some ⟨"u1", "d1"⟩), (2, some ⟨"u2", "d2"⟩), (3, some ⟨"u3", "d3"⟩)]
      Store.fresh).2.rows = [1] :=
  (C2_up_failure_at_version (Env.failing "u2")
    [(1, some ⟨"u1", "d1"⟩), (2, some ⟨"u2", "d2"⟩), (3, some ⟨"u3", "d3"⟩)]
    Store.fresh 2 ⟨"u2", "d2"⟩ rfl rfl (fun _ => rfl) (by decide) (by decide) (by decide)
    rfl (by decide) (Or.inl (by decide)) rfl).1


/-! ## `Down` -/

theorem mem_keys_of_index {reg : Registry} {k : Int} {sc : Script}
    (h : reg.index k = some sc) : k ∈ reg.keys := by
  unfold Registry.keys
  rw [List.mem_dedup]
  unfold Registry.index at h
  induction reg with
  | nil => simp [List.lookup] at h
  | cons p ps ih =>
    obtain ⟨a, b⟩ := p
    by_cases hk : k = a
    · simp [hk]
    · have hbeq : (k == a) = false := by simpa using hk
      simp only [List.lookup, hbeq] at h
      simp [ih h]

theorem not_empty_of_index {reg : Registry} {k : Int} {sc : Script}
    (h : reg.index k = some sc) : isMigrationScriptsEmpty reg = false := by
  have : reg.keys ≠ [] := List.ne_nil_of_mem (mem_keys_of_index h)
  simpa [isMigrationScriptsEmpty] using this

theorem rows_ne_nil_of_latest {rows : List Int} (h : latestRecorded rows ≠ 0) :
    rows ≠ [] := by
  rintro rfl
  exact h latestRecorded_nil

/-- Past the guards and with a registered, non-blank down script for the latest recorded
version, `Down` runs one transaction on that version. -/
theorem Down_of_script {env : Env} {reg : Registry} (st : Store) (sc : Script)
    (hprobe : env.probeOk = true) (hlatest : env.latestOk = true)
    (hscan : env.scanOk = true)
    (hv : latestRecorded st.rows ≠ 0)
    (hsc : reg.index (latestRecorded st.rows) = some sc) (hlen : sc.Down.length ≠ 0) :
    sql.Down env reg st =
      if (env.rawOk sc.Down && env.deleteOk (latestRecorded st.rows)) = true then
        if env.commitOk (latestRecorded st.rows) = true then
          (Outcome.ok,
            { rows := st.rows.filter (fun r => decide (r < latestRecorded st.rows)),
              calls := st.calls ++ [Call.probe, Call.selectLatest, Call.begin,
                Call.txRawSql sc.Down, Call.delete (latestRecorded st.rows), Call.commit] })
        else
          (Outcome.error (Err.downCommitFailed (latestRecorded st.rows)),
            st.record [Call.probe, Call.selectLatest, Call.begin,
              Call.txRawSql sc.Down, Call.delete (latestRecorded st.rows), Call.commit])
      else if env.rollbackOk (latestRecorded st.rows) = true then
        (Outcome.ok,
          st.record [Call.probe, Call.selectLatest, Call.begin,
            Call.txRawSql sc.Down, Call.delete (latestRecorded st.rows), Call.rollback])
      else
        (Outcome.error (Err.downRollbackFailed (latestRecorded st.rows)),
          st.record [Call.probe, Call.selectLatest, Call.begin,
            Call.txRawSql sc.Down, Call.delete (latestRecorded st.rows), Call.rollback]) := by
  have hreg := not_empty_of_index hsc
  have hget := @getLatest_ok env (st.record [Call.probe]) hlatest (fun _ => hscan)
  have hrows : (st.record [Call.probe]).rows = st.rows := rfl
  rw [hrows] at hget
  unfold sql.Down
  simp only [hprobe, hreg, if_true, hget, hv, if_false, hsc, hlen]
  by_cases h1 : (env.rawOk sc.Down && env.deleteOk (latestRecorded st.rows)) = true
  · by_cases h2 : env.commitOk (latestRecorded st.rows) = true
    · simp [h1, h2, Store.record]
    · simp [h1, h2, Store.record]
  · by_cases h3 : env.rollbackOk (latestRecorded st.rows) = true
    · simp [h1, h3, Store.record]
    · simp [h1, h3, Store.record]

/-- C3: when the latest recorded version v is not 0, is registered and has a non-empty
down script, and every call succeeds, `Down` returns success, runs exactly the down
script registered for v, removes every row with version v and keeps every other row (all
of them smaller than v) in place. -/
theorem C3_down_single_step (env : Env) (reg : Registry) (st : Store) (sc : Script)
    (hprobe : env.probeOk = true) (hlatest : env.latestOk = true)
    (hscan : env.scanOk = true)
    (hv : latestRecorded st.rows ≠ 0)
    (hsc : reg.index (latestRecorded st.rows) = some sc) (hlen : sc.Down.length ≠ 0)
    (hraw : env.rawOk sc.Down = true)
    (hdel : env.deleteOk (latestRecorded st.rows) = true)
    (hcommit : env.commitOk (latestRecorded st.rows) = true) :
    (sql.Down env reg st).1 = Outcome.ok ∧
    scriptsRun (sql.Down env reg st).2.calls = scriptsRun st.calls ++ [sc.Down] ∧
    (sql.Down env reg st).2.rows
      = st.rows.filter (fun r => decide (r ≠ latestRecorded st.rows)) ∧
    latestRecorded st.rows ∉ (sql.Down env reg st).2.rows ∧
    (sql.Down env reg st).2.rows.filter (fun r => decide (r < latestRecorded st.rows))
      = st.rows.filter (fun r => decide (r < latestRecorded st.rows)) := by
  have hmax := (latestRecorded_mem (rows_ne_nil_of_latest hv)).2
  have hfilter : st.rows.filter (fun r => decide (r < latestRecorded st.rows))
      = st.rows.filter (fun r => decide (r ≠ latestRecorded st.rows)) := by
    apply List.filter_congr
    intro r hr
    have := hmax r hr
    simp only [decide_eq_decide]
    omega
  have hand : (env.rawOk sc.Down && env.deleteOk (latestRecorded st.rows)) = true := by
    simp [hraw, hdel]
  rw [Down_of_script st sc hprobe hlatest hscan hv hsc hlen, if_pos hand, if_pos hcommit]
  refine ⟨rfl, ?_, hfilter, ?_, ?_⟩
  · simp [scriptsRun_append, scriptsRun]
  · simp [List.mem_filter]
  · simp [List.filter_filter]

/-- C3 at property P3 of the specification: with versions 1, 2, 3 recorded, `Down` runs
the down script of version 3 and leaves rows 1 and 2. -/
theorem C3_down_single_step_witness :
    (sql.Down Env.allOk
      [(1, some ⟨"u1", "d1"⟩), (2, some ⟨"u2", "d2"⟩), (3, some ⟨"u3", "d3"⟩)]
      { rows := [1, 2, 3], calls := [] }).2.rows = [1, 2] :=
  (C3_down_single_step Env.allOk
    [(1, some ⟨"u1", "d1"⟩), (2, some ⟨"u2", "d2"⟩), (3, some ⟨"u3", "d3"⟩)]
    { rows := [1, 2, 3], calls := [] } ⟨"u3", "d3"⟩ rfl rfl rfl (by decide) (by decide)
    (by decide) rfl rfl rfl).2.2.1


/-! ## `Up` twice -/

theorem findStart_split (L : Int) (A B : List Int) (i : Nat) (h : L ∉ A) :
    findStart L (A ++ L :: B) i = i + A.length + 1 := by
  induction A generalizing i with
  | nil => simp [findStart]
  | cons a as ih =>
    have ha : a ≠ L := fun e => h (by simp [e])
    have has : L ∉ as := fun e => h (by simp [e])
    rw [List.cons_append, findStart, if_neg ha, ih _ has, List.length_cons]
    omega

/-- When the latest recorded version is a key other than 0, the versions of `Up` are the
keys that follow it. -/
theorem upVersions_of_split {reg : Registry} {L : Int} {A B : List Int}
    (hk : sortedKeys reg = A ++ L :: B) (h0 : L ≠ 0) : upVersions reg L = B := by
  have hnd : (A ++ L :: B).Nodup := hk ▸ (sortedKeys_sorted reg).nodup
  have hA : L ∉ A := fun hmem =>
    (List.nodup_append.mp hnd).2.2 hmem (by simp)
  unfold upVersions
  simp only [h0, if_false, hk, findStart_split L A B 0 hA]
  have : A ++ L :: B = (A ++ [L]) ++ B := by simp
  rw [this]
  exact List.drop_left' (by simp)

theorem takeWhile_dropWhile_nil (p : Int → Bool) (l : List Int) :
    (l.dropWhile p).takeWhile p = [] := by
  cases h : l.dropWhile p with
  | nil => rfl
  | cons x xs =>
    have hx := List.head_dropWhile_not p l (by simp [h])
    simp only [h, List.head_cons] at hx
    simp [List.takeWhile_cons, hx]

/-- The rows are unchanged when `Up` does not get past its guards and reads. -/
theorem Up_rows_of_not_reads {env : Env} {reg : Registry} (st : Store)
    (h : ¬ (env.probeOk = true ∧ isMigrationScriptsEmpty reg = false ∧
      env.latestOk = true ∧ (st.rows ≠ [] → env.scanOk = true))) :
    (sql.Up env reg st).2.rows = st.rows := by
  unfold sql.Up
  by_cases hp : env.probeOk = true
  swap
  · simp [hp, Store.record]
  by_cases he : isMigrationScriptsEmpty reg = false
  swap
  · simp [hp, he, Store.record]
  by_cases hq : env.latestOk = true
  swap
  · simp [hp, he, hq, getLatestMigrationVersionFromDatabase, Store.record]
  have hs : ¬ (st.rows ≠ [] → env.scanOk = true) := fun hs => h ⟨hp, he, hq, hs⟩
  simp only [Classical.not_imp] at hs
  obtain ⟨hne, hscan⟩ := hs
  cases hf : firstDesc st.rows with
  | none => exact absurd (firstDesc_eq_none.mp hf) hne
  | some v =>
    have hf2 : firstDesc (st.record [Call.probe]).rows = some v := hf
    simp [hp, he, hq, getLatestMigrationVersionFromDatabase, hf, hf2, hscan, Store.record]

/-- The rows after `Up` when it gets past its guards and reads. -/
theorem Up_rows_of_reads {env : Env} {reg : Registry} (st : Store)
    (hprobe : env.probeOk = true) (hreg : isMigrationScriptsEmpty reg = false)
    (hq : env.latestOk = true) (hs : st.rows ≠ [] → env.scanOk = true) :
    (sql.Up env reg st).2.rows = st.rows ++
      (if getLatestMigrationVersion reg = some (latestRecorded st.rows) then []
        else (upVersions reg (latestRecorded st.rows)).takeWhile (applies env reg)) := by
  rw [Up_of_reads st hprobe hreg hq hs]
  by_cases h : getLatestMigrationVersion reg = some (latestRecorded st.rows)
  · simp [h, Store.record]
  · simp [h, upLoop_rows, Store.record]

/-- The latest recorded version after rows greater than all earlier ones were appended. -/
theorem latestRecorded_append {rows P : List Int} (hP : P ≠ [])
    (hsorted : P.Sorted (· < ·)) (hlt : ∀ r ∈ rows, ∀ t ∈ P, r < t) :
    latestRecorded (rows ++ P) = P.getLast hP := by
  have hmax := ((getLast?_sorted_iff hsorted (P.getLast hP)).mp
    (List.getLast?_eq_getLast P hP)).2
  apply latestRecorded_of_max
  · simp [List.getLast_mem hP]
  · intro r hr
    rcases List.mem_append.mp hr with hr | hr
    · exact le_of_lt (hlt r hr _ (List.getLast_mem hP))
    · exact hmax r hr


/-- The keys split around the versions of `Up`, which are all greater than the rows, when
the table is empty or its latest recorded version is a key other than 0. -/
theorem sortedKeys_split_upVersions {reg : Registry} {rows : List Int}
    (hinit : rows = [] ∨ (latestRecorded rows ∈ reg.keys ∧ latestRecorded rows ≠ 0)) :
    ∃ A, sortedKeys reg = A ++ upVersions reg (latestRecorded rows) ∧
      ∀ r ∈ rows, ∀ t ∈ upVersions reg (latestRecorded rows), r < t := by
  rcases hinit with hnil | ⟨hmem, hL0⟩
  · refine ⟨[], ?_, ?_⟩
    · simp [hnil, latestRecorded_nil, upVersions]
    · simp [hnil]
  · obtain ⟨A0, B, hsplit⟩ := List.append_of_mem (mem_sortedKeys.mpr hmem)
    have hB := upVersions_of_split hsplit hL0
    refine ⟨A0 ++ [latestRecorded rows], by rw [hB, hsplit]; simp, ?_⟩
    intro r hr t ht
    rw [hB] at ht
    have h1 := (latestRecorded_mem (rows_ne_nil_of_latest hL0)).2 r hr
    have hsorted := sortedKeys_sorted reg
    rw [hsplit] at hsorted
    have h2 := (List.pairwise_cons.mp (List.pairwise_append.mp hsorted).2.1).1 t ht
    omega

/-- C4 (as stated, refuted): with keys 0 and 5, the script of 5 failing and an empty
table, the first `Up` records 0 and the second `Up` records 0 once more. -/
theorem C4_up_twice_differs_at_key_zero :
    (sql.Up (Env.failing "u5") [(0, some ⟨"u0", "d0"⟩), (5, some ⟨"u5", "d5"⟩)]
      Store.fresh).2.rows = [0] ∧
    (sql.Up (Env.failing "u5") [(0, some ⟨"u0", "d0"⟩), (5, some ⟨"u5", "d5"⟩)]
      (sql.Up (Env.failing "u5") [(0, some ⟨"u0", "d0"⟩), (5, some ⟨"u5", "d5"⟩)]
        Store.fresh).2).2.rows = [0, 0] := by
  decide

/-- C4 (amended): for a registry that does not use 0 as a key and a tracking table that is
empty or whose latest recorded version is a key of the registry, with the outcome of
every call fixed by the environment, the table after a second `Up` equals the table after
the first. -/
theorem C4_up_twice (env : Env) (reg : Registry) (st : Store)
    (hkeys : ∀ k ∈ reg.keys, k ≠ 0)
    (hinit : st.rows = [] ∨ latestRecorded st.rows ∈ reg.keys) :
    (sql.Up env reg (sql.Up env reg st).2).2.rows = (sql.Up env reg st).2.rows := by
  by_cases hreads : env.probeOk = true ∧ isMigrationScriptsEmpty reg = false ∧
      env.latestOk = true ∧ (st.rows ≠ [] → env.scanOk = true)
  swap
  · have h1 := Up_rows_of_not_reads st hreads
    apply Up_rows_of_not_reads
    rw [h1]
    exact hreads
  obtain ⟨hp, he, hq, hs⟩ := hreads
  by_cases hs2 : (sql.Up env reg st).2.rows ≠ [] → env.scanOk = true
  swap
  · exact Up_rows_of_not_reads _ (fun h => hs2 h.2.2.2)
  rw [Up_rows_of_reads _ hp he hq hs2]
  suffices h : getLatestMigrationVersion reg
        = some (latestRecorded (sql.Up env reg st).2.rows) ∨
      (upVersions reg (latestRecorded (sql.Up env reg st).2.rows)).takeWhile
        (applies env reg) = [] by
    by_cases h2 : getLatestMigrationVersion reg
        = some (latestRecorded (sql.Up env reg st).2.rows)
    · rw [if_pos h2, List.append_nil]
    · rw [if_neg h2, h.resolve_left h2, List.append_nil]
  have hrows := Up_rows_of_reads st hp he hq hs
  by_cases htop : getLatestMigrationVersion reg = some (latestRecorded st.rows)
  · rw [if_pos htop, List.append_nil] at hrows
    left
    rw [hrows]
    exact htop
  rw [if_neg htop] at hrows
  obtain ⟨A, hA, hlt⟩ := @sortedKeys_split_upVersions reg st.rows
    (hinit.imp id (fun hmem => ⟨hmem, hkeys _ hmem⟩))
  right
  generalize hT : upVersions reg (latestRecorded st.rows) = T at hrows hA hlt
  by_cases hPnil : T.takeWhile (applies env reg) = []
  · rw [hrows, hPnil, List.append_nil, hT]
    exact hPnil
  have hdrop := takeWhile_dropWhile_nil (applies env reg) T
  have hTsplit := (List.takeWhile_append_dropWhile (applies env reg) T).symm
  generalize T.dropWhile (applies env reg) = R at hdrop hTsplit
  generalize T.takeWhile (applies env reg) = P at hrows hPnil hTsplit
  have hsorted := sortedKeys_sorted reg
  rw [hA, hTsplit] at hsorted
  have hPsorted : P.Sorted (· < ·) :=
    (List.pairwise_append.mp (List.pairwise_append.mp hsorted).2.1).1
  have hPlt : ∀ r ∈ st.rows, ∀ t ∈ P, r < t := fun r hr t ht =>
    hlt r hr t (by rw [hTsplit]; exact List.mem_append_left _ ht)
  have hsplit : sortedKeys reg = (A ++ P.dropLast) ++ P.getLast hPnil :: R := by
    rw [hA, hTsplit]
    conv_lhs => rw [← List.dropLast_append_getLast hPnil]
    simp
  have hlast_mem : P.getLast hPnil ∈ reg.keys :=
    mem_sortedKeys.mp (by rw [hsplit]; simp)
  rw [hrows, latestRecorded_append hPnil hPsorted hPlt,
    upVersions_of_split hsplit (hkeys _ hlast_mem)]
  exact hdrop

/-- C4 (amended), on versions 1, 2, 3 with the script of 2 failing: both runs leave the
table with the row of version 1 only. -/
theorem C4_up_twice_witness :
    (sql.Up (Env.failing "u2")
      [(1, some ⟨"u1", "d1"⟩), (2, some ⟨"u2", "d2"⟩), (3, some ⟨"u3", "d3"⟩)]
      (sql.Up (Env.failing "u2")
        [(1, some ⟨"u1", "d1"⟩), (2, some ⟨"u2", "d2"⟩), (3, some ⟨"u3", "d3"⟩)]
        Store.fresh).2).2.rows
    = (sql.Up (Env.failing "u2")
        [(1, some ⟨"u1", "d1"⟩), (2, some ⟨"u2", "d2"⟩), (3, some ⟨"u3", "d3"⟩)]
        Store.fresh).2.rows :=
  C4_up_twice (Env.failing "u2")
    [(1, some ⟨"u1", "d1"⟩), (2, some ⟨"u2", "d2"⟩), (3, some ⟨"u3", "d3"⟩)]
    Store.fresh (by decide) (Or.inl rfl)


/-! ## `Check` and `Truncate` -/

theorem scanVersions_ok (version : Int) (rows : List Int) (total : Nat) :
    ∃ n, scanVersions true version rows total = (n, false, decide (version ∈ rows)) ∧
      (n = 0 ↔ rows = [] ∧ total = 0) := by
  induction rows generalizing total with
  | nil => exact ⟨total, by simp [scanVersions], by simp⟩
  | cons id rest ih =>
    by_cases h : id = version
    · exact ⟨total + 1, by simp [scanVersions, h], by simp⟩
    · obtain ⟨n, hn, hz⟩ := ih (total + 1)
      have h2 : ¬ version = id := fun e => h e.symm
      refine ⟨n, by simp [scanVersions, h, h2, hn], ?_⟩
      simp only [hz]
      simp

/-- On a readable table `isAlreadyMigrated` succeeds exactly when the version has a row. -/
theorem isAlreadyMigrated_of_reads {env : Env} (version : Int) (st : Store)
    (hq : env.versionsOk = true) (hs : env.scanOk = true) :
    isAlreadyMigrated env version st
      = (if version ∈ st.rows then Outcome.ok else Outcome.error (Err.notMigrated version),
          st.record [Call.selectVersions]) := by
  obtain ⟨n, hn, hz⟩ := scanVersions_ok version st.rows 0
  unfold isAlreadyMigrated
  simp only [hq, hs, if_true, hn]
  by_cases hmem : version ∈ st.rows
  · have hn0 : n ≠ 0 := fun h0 => by
      have := (hz.mp h0).1
      rw [this] at hmem
      simp at hmem
    simp [hmem, hn0]
  · by_cases hn0 : n = 0 <;> simp [hmem, hn0]

/-- C5: for a registry with greatest key M and a tracking table whose probe, query and
scans succeed, `Check` returns success exactly when some row has version M; when no row
has version M (the empty table included) it returns the error whose message names M. It
does not change the table. -/
theorem C5_check_maximum (env : Env) (reg : Registry) (st : Store) (M : Int)
    (hM : M ∈ reg.keys) (hmax : ∀ k ∈ reg.keys, k ≤ M)
    (hprobe : env.probeOk = true) (hversions : env.versionsOk = true)
    (hscan : env.scanOk = true) :
    ((sql.Check env reg st).1 = Outcome.ok ↔ M ∈ st.rows) ∧
    (M ∉ st.rows → (sql.Check env reg st).1 = Outcome.error (Err.notMigrated M)) ∧
    Err.message (Err.notMigrated M) = "migration " ++ toString M ++ " is not migrated!" ∧
    (sql.Check env reg st).2.rows = st.rows := by
  have hreg : isMigrationScriptsEmpty reg = false := by
    have : reg.keys ≠ [] := List.ne_nil_of_mem hM
    simpa [isMigrationScriptsEmpty] using this
  have htop := getLatestMigrationVersion_eq_some.mpr ⟨hM, hmax⟩
  have hcheck : sql.Check env reg st
      = (if M ∈ st.rows then Outcome.ok else Outcome.error (Err.notMigrated M),
          st.record [Call.probe, Call.selectVersions]) := by
    unfold sql.Check
    simp only [hprobe, hreg, if_true, htop]
    rw [isAlreadyMigrated_of_reads M _ hversions hscan]
    simp [Store.record]
  rw [hcheck]
  refine ⟨?_, ?_, rfl, rfl⟩
  · by_cases hmem : M ∈ st.rows <;> simp [hmem]
  · intro hmem
    simp [hmem]

/-- C5 at property P4 of the specification: registry with versions 1 and 2, table with
version 1 only: `Check` fails and names version 2. -/
theorem C5_check_maximum_witness :
    (sql.Check Env.allOk [(1, some ⟨"u1", "d1"⟩), (2, some ⟨"u2", "d2"⟩)]
      { rows := [1], calls := [] }).1 = Outcome.error (Err.notMigrated 2) :=
  (C5_check_maximum Env.allOk [(1, some ⟨"u1", "d1"⟩), (2, some ⟨"u2", "d2"⟩)]
    { rows := [1], calls := [] } 2 (by decide) (by decide) rfl rfl rfl).2.1 (by decide)


theorem isAlreadyMigrated_store (env : Env) (version : Int) (st : Store) :
    (isAlreadyMigrated env version st).2 = st.record [Call.selectVersions] := by
  unfold isAlreadyMigrated
  by_cases hq : env.versionsOk = true
  · simp only [hq, if_true]
    repeat' split
    all_goals rfl
  · simp [hq]

/-- On an empty table `isAlreadyMigrated` returns an error. -/
theorem isAlreadyMigrated_nil (env : Env) (version : Int) (st : Store)
    (hrows : st.rows = []) :
    ∃ e, (isAlreadyMigrated env version st).1 = Outcome.error e := by
  unfold isAlreadyMigrated
  by_cases hq : env.versionsOk = true
  · exact ⟨Err.notMigrated version, by simp [hq, hrows, scanVersions]⟩
  · exact ⟨Err.checkQueryFailed version, by simp [hq]⟩

/-- The method `Check` never changes the rows. -/
theorem Check_rows (env : Env) (reg : Registry) (st : Store) :
    (sql.Check env reg st).2.rows = st.rows := by
  unfold sql.Check
  by_cases hp : env.probeOk = true
  · by_cases he : isMigrationScriptsEmpty reg = true
    · simp [hp, he, Store.record]
    · cases htop : getLatestMigrationVersion reg with
      | none => simp [hp, he, Store.record]
      | some v => simp [hp, he, isAlreadyMigrated_store, Store.record]
  · simp [hp, Store.record]

/-- C6 (as stated, refuted): with the single key 0, after a successful `Truncate` and a
failed `Check`, `Up` stops on the maximum key: it runs nothing and leaves the table
empty, where the loop over the full key list would have recorded version 0. -/
theorem C6_up_after_truncate_skips_key_zero :
    (sql.Truncate Env.allOk { rows := [0], calls := [] }).2.rows = [] ∧
    sortedKeys [(0, some ⟨"u0", "d0"⟩)] = [0] ∧
    (sql.Up Env.allOk [(0, some ⟨"u0", "d0"⟩)]
      (sql.Check Env.allOk [(0, some ⟨"u0", "d0"⟩)]
        (sql.Truncate Env.allOk { rows := [0], calls := [] }).2).2).2.rows = [] ∧
    (upLoop Env.allOk [(0, some ⟨"u0", "d0"⟩)] (sortedKeys [(0, some ⟨"u0", "d0"⟩)])
      ((sql.Check Env.allOk [(0, some ⟨"u0", "d0"⟩)]
        (sql.Truncate Env.allOk { rows := [0], calls := [] }).2).2.record
          [Call.probe, Call.selectLatest])).2.rows = [0] := by
  decide

/-- C6 (amended): for a non-empty registry whose greatest key is not 0 and any table
content, a successful `Truncate` leaves the table empty, a following `Check` returns an
error and leaves it empty, and a following `Up` whose probe and read succeed is the loop
of `Up` over the full ascending list of registry keys. -/
theorem C6_truncate_check_up (e1 e2 e3 : Env) (reg : Registry) (st : Store)
    (hreg : isMigrationScriptsEmpty reg = false)
    (htop : getLatestMigrationVersion reg ≠ some 0)
    (hprobe1 : e1.probeOk = true) (htrunc : e1.truncateOk = true)
    (hprobe3 : e3.probeOk = true) (hlatest3 : e3.latestOk = true) :
    (sql.Truncate e1 st).1 = Outcome.ok ∧
    (sql.Truncate e1 st).2.rows = [] ∧
    (∃ e, (sql.Check e2 reg (sql.Truncate e1 st).2).1 = Outcome.error e) ∧
    (sql.Check e2 reg (sql.Truncate e1 st).2).2.rows = [] ∧
    sql.Up e3 reg (sql.Check e2 reg (sql.Truncate e1 st).2).2
      = upLoop e3 reg (sortedKeys reg)
          ((sql.Check e2 reg (sql.Truncate e1 st).2).2.record
            [Call.probe, Call.selectLatest]) := by
  have ht1 : (sql.Truncate e1 st).1 = Outcome.ok := by
    simp [sql.Truncate, hprobe1, htrunc]
  have ht2 : (sql.Truncate e1 st).2.rows = [] := by
    simp [sql.Truncate, hprobe1, htrunc]
  have hc2 : (sql.Check e2 reg (sql.Truncate e1 st).2).2.rows = [] := by
    rw [Check_rows, ht2]
  refine ⟨ht1, ht2, ?_, hc2, ?_⟩
  · unfold sql.Check
    by_cases hp : e2.probeOk = true
    · cases hv : getLatestMigrationVersion reg with
      | none =>
        exact absurd (List.getLast?_eq_none_iff.mp hv) (sortedKeys_ne_nil hreg)
      | some v =>
        simp only [hp, hreg, if_true]
        exact isAlreadyMigrated_nil e2 v _ ht2
    · exact ⟨Err.tableNotFound, by simp [hp]⟩
  · rw [Up_of_reads _ hprobe3 hreg hlatest3 (fun h => absurd hc2 h), hc2,
      latestRecorded_nil, if_neg htop]
    simp [upVersions]

/-- C6 (amended) at versions 1 and 2 with both rows recorded before the truncate: the
`Up` that follows records 1 and 2 again. -/
theorem C6_truncate_check_up_witness :
    sql.Up Env.allOk [(1, some ⟨"u1", "d1"⟩), (2, some ⟨"u2", "d2"⟩)]
        (sql.Check Env.allOk [(1, some ⟨"u1", "d1"⟩), (2, some ⟨"u2", "d2"⟩)]
          (sql.Truncate Env.allOk { rows := [1, 2], calls := [] }).2).2
      = upLoop Env.allOk [(1, some ⟨"u1", "d1"⟩), (2, some ⟨"u2", "d2"⟩)]
          (sortedKeys [(1, some ⟨"u1", "d1"⟩), (2, some ⟨"u2", "d2"⟩)])
          ((sql.Check Env.allOk [(1, some ⟨"u1", "d1"⟩), (2, some ⟨"u2", "d2"⟩)]
            (sql.Truncate Env.allOk { rows := [1, 2], calls := [] }).2).2.record
              [Call.probe, Call.selectLatest]) :=
  (C6_truncate_check_up Env.allOk Env.allOk Env.allOk
    [(1, some ⟨"u1", "d1"⟩), (2, some ⟨"u2", "d2"⟩)] { rows := [1, 2], calls := [] }
    (by decide) (by decide) rfl rfl rfl rfl).2.2.2.2


/-- C7 (the code at the failing input): registry with keys 1 and 3, table with rows 1 and
2 (latest recorded version 2 is not a key). The keys greater than 2 are 3 alone, but the
versions `Up` acts on are 1 and 3: script 1 runs again and row 1 is recorded twice. -/
theorem C7_up_versions_at_unregistered_latest :
    latestRecorded [1, 2] = 2 ∧
    (sortedKeys [(1, some ⟨"u1", "d1"⟩), (3, some ⟨"u3", "d3"⟩)]).filter
      (fun k => decide (2 < k)) = [3] ∧
    upVersions [(1, some ⟨"u1", "d1"⟩), (3, some ⟨"u3", "d3"⟩)] 2 = [1, 3] ∧
    sql.Up Env.allOk [(1, some ⟨"u1", "d1"⟩), (3, some ⟨"u3", "d3"⟩)]
        { rows := [1, 2], calls := [] }
      = (Outcome.ok,
          { rows := [1, 2, 1, 3],
            calls := [Call.probe, Call.selectLatest,
              Call.begin, Call.txRawSql "u1", Call.insert 1, Call.commit,
              Call.begin, Call.txRawSql "u3", Call.insert 3, Call.commit] }) := by
  decide

/-- When the latest recorded version is a key other than 0, the versions `Up` acts on
are exactly the keys greater than it, in ascending order. -/
theorem upVersions_of_registered {reg : Registry} {L : Int} (hL : L ∈ reg.keys)
    (h0 : L ≠ 0) :
    upVersions reg L = (sortedKeys reg).filter (fun k => decide (L < k)) := by
  obtain ⟨A, B, hsplit⟩ := List.append_of_mem (mem_sortedKeys.mpr hL)
  rw [upVersions_of_split hsplit h0]
  have hsorted := sortedKeys_sorted reg
  rw [hsplit] at hsorted ⊢
  obtain ⟨_, h2, h3⟩ := List.pairwise_append.mp hsorted
  have h4 := (List.pairwise_cons.mp h2).1
  rw [List.filter_append, List.filter_cons]
  have hA : A.filter (fun k => decide (L < k)) = [] := by
    apply List.filter_eq_nil_iff.mpr
    intro a ha
    have := h3 a ha L (by simp)
    simp only [decide_eq_true_eq]
    omega
  have hB : B.filter (fun k => decide (L < k)) = B :=
    List.filter_eq_self.mpr (fun b hb => by simpa using h4 b hb)
  simp [hA, hB]

/-- C8: for a non-empty registry and a table whose latest recorded version, read
successfully, equals the greatest key, `Up` returns success after the probe and the read
alone: no script is run, no row is inserted and the table is unchanged. -/
theorem C8_up_short_circuit (env : Env) (reg : Registry) (st : Store)
    (hprobe : env.probeOk = true) (hlatest : env.latestOk = true)
    (hscan : st.rows ≠ [] → env.scanOk = true)
    (hreg : isMigrationScriptsEmpty reg = false)
    (htop : getLatestMigrationVersion reg = some (latestRecorded st.rows)) :
    sql.Up env reg st = (Outcome.ok, st.record [Call.probe, Call.selectLatest]) ∧
    (sql.Up env reg st).2.rows = st.rows ∧
    scriptsRun (sql.Up env reg st).2.calls = scriptsRun st.calls ∧
    insertsIssued (sql.Up env reg st).2.calls = insertsIssued st.calls := by
  have hup := Up_of_reads st hprobe hreg hlatest hscan
  rw [if_pos htop] at hup
  rw [hup]
  refine ⟨rfl, rfl, ?_, ?_⟩
  · simp [Store.record, scriptsRun_append, scriptsRun]
  · simp [Store.record, insertsIssued_append, insertsIssued]

/-- C8 with a gap below the maximum: registry with versions 1 and 2, table with row 2
only. `Up` leaves the table as it is although version 1 has no row. -/
theorem C8_up_short_circuit_witness :
    1 ∉ ({ rows := [2], calls := [] } : Store).rows ∧
    sql.Up Env.allOk [(1, some ⟨"u1", "d1"⟩), (2, some ⟨"u2", "d2"⟩)]
        { rows := [2], calls := [] }
      = (Outcome.ok, { rows := [2], calls := [Call.probe, Call.selectLatest] }) :=
  ⟨by decide,
    (C8_up_short_circuit Env.allOk [(1, some ⟨"u1", "d1"⟩), (2, some ⟨"u2", "d2"⟩)]
      { rows := [2], calls := [] } rfl rfl (fun _ => rfl) (by decide) (by decide)).1⟩

/-- C9 (as stated, refuted): with an empty registry and a store whose existence probe
fails, `Up`, `Down` and `Check` return the table-not-found error, not success. -/
theorem C9_empty_registry_errors_without_table :
    (sql.Up Env.noTable [] Store.fresh).1 = Outcome.error Err.tableNotFound ∧
    (sql.Down Env.noTable [] Store.fresh).1 = Outcome.error Err.tableNotFound ∧
    (sql.Check Env.noTable [] Store.fresh).1 = Outcome.error Err.tableNotFound := by
  decide

/-- C9 (amended): with an empty registry, each of `Up`, `Down` and `Check` makes the
existence probe and nothing else: it returns success when the probe succeeds and the
table-not-found error when it fails, runs no script and leaves the table unchanged. -/
theorem C9_empty_registry (env : Env) (reg : Registry) (st : Store)
    (hreg : isMigrationScriptsEmpty reg = true) :
    sql.Up env reg st
      = (if env.probeOk = true then Outcome.ok else Outcome.error Err.tableNotFound,
          st.record [Call.probe]) ∧
    sql.Down env reg st
      = (if env.probeOk = true then Outcome.ok else Outcome.error Err.tableNotFound,
          st.record [Call.probe]) ∧
    sql.Check env reg st
      = (if env.probeOk = true then Outcome.ok else Outcome.error Err.tableNotFound,
          st.record [Call.probe]) ∧
    (st.record [Call.probe]).rows = st.rows ∧
    scriptsRun (st.record [Call.probe]).calls = scriptsRun st.calls := by
  refine ⟨?_, ?_, ?_, rfl, ?_⟩
  · by_cases hp : env.probeOk = true <;> simp [sql.Up, hp, hreg]
  · by_cases hp : env.probeOk = true <;> simp [sql.Down, hp, hreg]
  · by_cases hp : env.probeOk = true <;> simp [sql.Check, hp, hreg]
  · simp [Store.record, scriptsRun_append, scriptsRun]

/-- C9 (amended) on an existing table with rows 1 and 2: `Up` with the empty registry
returns success and leaves the rows. -/
theorem C9_empty_registry_witness :
    sql.Up Env.allOk [] { rows := [1, 2], calls := [] }
      = (Outcome.ok, { rows := [1, 2], calls := [Call.probe] }) :=
  (C9_empty_registry Env.allOk [] { rows := [1, 2], calls := [] } rfl).1


/-- One round of the loop on a version whose up script is empty. -/
theorem upLoop_cons_of_blank (env : Env) (reg : Registry) (N : Int) (post : List Int)
    (st : Store) (sc : Script) (hsc : reg.index N = some sc) (hblank : sc.Up.length = 0) :
    upLoop env reg (N :: post) st = (Outcome.error (Err.upBlank N), st) := by
  rw [upLoop]
  simp [hsc, hblank]

/-- A run of `Up` whose target versions smaller than N all apply reaches the round of N
with exactly those versions committed. -/
theorem Up_reaches {env : Env} {reg : Registry} (st : Store) (N : Int)
    (hprobe : env.probeOk = true) (hlatest : env.latestOk = true)
    (hscan : st.rows ≠ [] → env.scanOk = true)
    (htop : getLatestMigrationVersion reg ≠ some (latestRecorded st.rows))
    (hN : N ∈ upVersions reg (latestRecorded st.rows))
    (hbefore : ∀ v ∈ upVersions reg (latestRecorded st.rows), v < N →
      applies env reg v = true) :
    (∀ v ∈ (upVersions reg (latestRecorded st.rows)).filter (fun v => decide (v < N)),
      v < N ∧ ∃ s, reg.index v = some s) ∧
    ∃ post, sql.Up env reg st = upLoop env reg (N :: post)
      { rows := st.rows
          ++ (upVersions reg (latestRecorded st.rows)).filter (fun v => decide (v < N)),
        calls := st.calls ++ [Call.probe, Call.selectLatest]
          ++ ((upVersions reg (latestRecorded st.rows)).filter
              (fun v => decide (v < N))).flatMap (applyCalls reg) } := by
  have hreg : isMigrationScriptsEmpty reg = false := by
    have hk := mem_sortedKeys.mp (mem_sortedKeys_of_mem_upVersions hN)
    have : reg.keys ≠ [] := List.ne_nil_of_mem hk
    simpa [isMigrationScriptsEmpty] using this
  constructor
  · intro v hv
    obtain ⟨hmem, hlt⟩ := List.mem_filter.mp hv
    have hlt2 : v < N := by simpa using hlt
    obtain ⟨s, hs, _⟩ := applies_iff.mp (hbefore v hmem hlt2)
    exact ⟨hlt2, s, hs⟩
  · obtain ⟨pre, post, hsplit⟩ := List.append_of_mem hN
    have hsorted := upVersions_sorted reg (latestRecorded st.rows)
    rw [hsplit] at hsorted hbefore
    have hfilter := filter_lt_of_sorted_split hsorted
    have hpre : ∀ v ∈ pre, applies env reg v = true := fun v hv =>
      hbefore v (by simp [hv]) ((List.pairwise_append.mp hsorted).2.2 v hv N (by simp))
    refine ⟨post, ?_⟩
    rw [Up_of_reads st hprobe hreg hlatest hscan, if_neg htop, hsplit, hfilter,
      upLoop_append_of_applies env reg pre (N :: post) _ hpre]
    simp [Store.record]

/-- C10 (as stated, refuted): the registry has the keys 0 and 1, and the down script of
version 0 is empty. `Up` from an empty table records 0 and 1, and `Down` then removes 1,
so the table has the single row 0: the latest recorded version is 0 and its down script
is empty. `Down` on that table stops on its guard `version == 0` after the probe and the
read and returns success, not an error naming version 0. -/
theorem C10_down_blank_script_at_version_zero :
    sql.Up Env.allOk [(0, some ⟨"u0", ""⟩), (1, some ⟨"u1", "d1"⟩)] Store.fresh
      = (Outcome.ok,
          { rows := [0, 1],
            calls := [Call.probe, Call.selectLatest,
              Call.begin, Call.txRawSql "u0", Call.insert 0, Call.commit,
              Call.begin, Call.txRawSql "u1", Call.insert 1, Call.commit] }) ∧
    (sql.Down Env.allOk [(0, some ⟨"u0", ""⟩), (1, some ⟨"u1", "d1"⟩)]
        { rows := [0, 1], calls := [] }).1 = Outcome.ok ∧
    (sql.Down Env.allOk [(0, some ⟨"u0", ""⟩), (1, some ⟨"u1", "d1"⟩)]
        { rows := [0, 1], calls := [] }).2.rows = [0] ∧
    firstDesc [0] = some 0 ∧
    latestRecorded [0] = 0 ∧
    Registry.index [(0, some ⟨"u0", ""⟩), (1, some ⟨"u1", "d1"⟩)] 0 = some ⟨"u0", ""⟩ ∧
    (⟨"u0", ""⟩ : Script).Down.length = 0 ∧
    sql.Down Env.allOk [(0, some ⟨"u0", ""⟩), (1, some ⟨"u1", "d1"⟩)]
        { rows := [0], calls := [] }
      = (Outcome.ok, { rows := [0], calls := [Call.probe, Call.selectLatest] }) := by
  decide

/-- C10 (amended), two statements, each quantified over its own environment, registry and
table. (Up) In a run of `Up` that reaches its loop (the table exists and is readable, the
largest registry key is not the latest recorded version) in which the target versions
smaller than N apply and the up script of target version N is empty, `Up` returns the
error with the text `[MIGRATION-UP] - migration script N can't be blank!`, the table is
the prior rows followed by exactly the target versions smaller than N, and no transaction
is opened, no script run and no row added for N or a larger version. (Down) When the
table exists and is readable, the latest recorded version is not 0 and its registered
down script is empty, `Down` returns the error with the text `[MIGRATION-DOWN] - script
with version V can't be empty` for that version V after the probe and the read alone,
runs no script, and the table is unchanged. -/
theorem C10_blank_script :
    (∀ (env : Env) (reg : Registry) (st : Store) (N : Int) (sc : Script),
      env.probeOk = true → env.latestOk = true → (st.rows ≠ [] → env.scanOk = true) →
      getLatestMigrationVersion reg ≠ some (latestRecorded st.rows) →
      N ∈ upVersions reg (latestRecorded st.rows) →
      (∀ v ∈ upVersions reg (latestRecorded st.rows), v < N → applies env reg v = true) →
      reg.index N = some sc → sc.Up.length = 0 →
      (sql.Up env reg st).1 = Outcome.error (Err.upBlank N) ∧
      Err.message (Err.upBlank N)
        = "[MIGRATION-UP] - migration script " ++ toString N ++ " can\x27t be blank!" ∧
      (sql.Up env reg st).2.rows
        = st.rows
          ++ (upVersions reg (latestRecorded st.rows)).filter (fun v => decide (v < N)) ∧
      (∀ v, N ≤ v → (sql.Up env reg st).2.rows.count v = st.rows.count v) ∧
      insertsIssued (sql.Up env reg st).2.calls
        = insertsIssued st.calls
          ++ (upVersions reg (latestRecorded st.rows)).filter (fun v => decide (v < N)) ∧
      scriptsRun (sql.Up env reg st).2.calls
        = scriptsRun st.calls
          ++ ((upVersions reg (latestRecorded st.rows)).filter
              (fun v => decide (v < N))).map (upScript reg)) ∧
    (∀ (env : Env) (reg : Registry) (st : Store) (sc : Script),
      env.probeOk = true → env.latestOk = true → env.scanOk = true →
      latestRecorded st.rows ≠ 0 →
      reg.index (latestRecorded st.rows) = some sc → sc.Down.length = 0 →
      sql.Down env reg st
        = (Outcome.error (Err.downBlank (latestRecorded st.rows)),
            st.record [Call.probe, Call.selectLatest]) ∧
      Err.message (Err.downBlank (latestRecorded st.rows))
        = "[MIGRATION-DOWN] - script with version " ++ toString (latestRecorded st.rows)
          ++ " can\x27t be empty" ∧
      (sql.Down env reg st).2.rows = st.rows ∧
      scriptsRun (sql.Down env reg st).2.calls = scriptsRun st.calls) := by
  constructor
  · intro env reg st N sc hprobe hlatest hscan htop hN hbefore hsc hblank
    obtain ⟨hpre, post, hup⟩ := Up_reaches st N hprobe hlatest hscan htop hN hbefore
    have hidx := fun v hv => (hpre v hv).2
    rw [hup, upLoop_cons_of_blank env reg N post _ sc hsc hblank]
    refine ⟨rfl, rfl, rfl, ?_, ?_, ?_⟩
    · intro v hv
      have : v ∉ (upVersions reg (latestRecorded st.rows)).filter
          (fun v => decide (v < N)) := fun hmem => by
        have := (hpre v hmem).1
        omega
      simp [List.count_append, List.count_eq_zero_of_not_mem this]
    · simp [insertsIssued_append, insertsIssued, insertsIssued_applyCalls reg _ hidx]
    · simp [scriptsRun_append, scriptsRun, scriptsRun_applyCalls reg _ hidx]
  · intro env reg st sc hprobe hlatest hscan hv hsc hblank
    have hreg := not_empty_of_index hsc
    have hget := @getLatest_ok env (st.record [Call.probe]) hlatest (fun _ => hscan)
    have hrows : (st.record [Call.probe]).rows = st.rows := rfl
    rw [hrows] at hget
    have hdown : sql.Down env reg st
        = (Outcome.error (Err.downBlank (latestRecorded st.rows)),
            st.record [Call.probe, Call.selectLatest]) := by
      unfold sql.Down
      simp only [hprobe, hreg, if_true, hget, hv, if_false, hsc, hblank]
      simp [Store.record]
    rw [hdown]
    refine ⟨rfl, rfl, rfl, ?_⟩
    simp [Store.record, scriptsRun_append, scriptsRun]

/-- C10 (amended) on two independent inputs. A registry whose version 2 has an empty up
script and a non-empty down script: `Up` from an empty table commits version 1 and fails
on version 2. Another registry whose version 2 has an empty down script only: `Down` on a
table with rows 1 and 2 fails on version 2 and leaves both rows. -/
theorem C10_blank_script_witness :
    sql.Up Env.allOk [(1, some ⟨"u1", "d1"⟩), (2, some ⟨"", "d2"⟩), (3, some ⟨"u3", "d3"⟩)]
        Store.fresh
      = (Outcome.error (Err.upBlank 2),
          { rows := [1],
            calls := [Call.probe, Call.selectLatest,
              Call.begin, Call.txRawSql "u1", Call.insert 1, Call.commit] }) ∧
    (sql.Up Env.allOk [(1, some ⟨"u1", "d1"⟩), (2, some ⟨"", "d2"⟩), (3, some ⟨"u3", "d3"⟩)]
        Store.fresh).1 = Outcome.error (Err.upBlank 2) ∧
    sql.Down Env.allOk [(1, some ⟨"u1", "d1"⟩), (2, some ⟨"u2", ""⟩)]
        { rows := [1, 2], calls := [] }
      = (Outcome.error (Err.downBlank 2),
          { rows := [1, 2], calls := [Call.probe, Call.selectLatest] }) :=
  ⟨by decide,
    (C10_blank_script.1 Env.allOk
      [(1, some ⟨"u1", "d1"⟩), (2, some ⟨"", "d2"⟩), (3, some ⟨"u3", "d3"⟩)]
      Store.fresh 2 ⟨"", "d2"⟩ rfl rfl (fun _ => rfl) (by decide) (by decide) (by decide)
      rfl rfl).1,
    (C10_blank_script.2 Env.allOk [(1, some ⟨"u1", "d1"⟩), (2, some ⟨"u2", ""⟩)]
      { rows := [1, 2], calls := [] } ⟨"u2", ""⟩ rfl rfl rfl (by decide) (by decide)
      rfl).1⟩

/-! ## Failure paths of the relational runner -/

/-- C11 (the code at the failing input): registry with the single key 1, tracking store
with versions 1 and 2. In both runners `Down` reads 2 as latest recorded version, finds
no script for it and crashes on the nil script instead of returning an error; the store
is as before. -/
theorem C11_down_crashes_on_missing_entry :
    sql.Down Env.allOk [(1, some ⟨"u1", "d1"⟩)] { rows := [1, 2], calls := [] }
      = (Outcome.panic, { rows := [1, 2], calls := [Call.probe, Call.selectLatest] }) ∧
    nosql.Down NoSqlEnv.allOk [(1, some ⟨some "up1", some "down1"⟩)]
        { docs := [1, 2], calls := [] }
      = (NoSqlOutcome.panic, { docs := [1, 2], calls := [NoSqlCall.findSorted] }) := by
  decide

/-- C12 (as stated, refuted): with versions 1, 2, 3 on an empty table and the script of
version 2 failing, the rollback succeeds and `Up` returns nil, not an error. -/
theorem C12_up_returns_nil_after_rollback :
    sql.Up (Env.failing "u2")
        [(1, some ⟨"u1", "d1"⟩), (2, some ⟨"u2", "d2"⟩), (3, some ⟨"u3", "d3"⟩)]
        Store.fresh
      = (Outcome.ok,
          { rows := [1],
            calls := [Call.probe, Call.selectLatest,
              Call.begin, Call.txRawSql "u1", Call.insert 1, Call.commit,
              Call.begin, Call.txRawSql "u2", Call.insert 2, Call.rollback] }) := by
  decide

/-- C12 (amended): in a run of `Up` that reaches target version N (the smaller target
versions apply) where the up script of N or the insert of its tracking row fails, `Up`
rolls the transaction of N back and returns the error carrying N when that rollback
fails, and nil when the rollback succeeds. -/
theorem C12_up_failure_outcome (env : Env) (reg : Registry) (st : Store) (N : Int)
    (sc : Script)
    (hprobe : env.probeOk = true) (hlatest : env.latestOk = true)
    (hscan : st.rows ≠ [] → env.scanOk = true)
    (htop : getLatestMigrationVersion reg ≠ some (latestRecorded st.rows))
    (hN : N ∈ upVersions reg (latestRecorded st.rows))
    (hbefore : ∀ v ∈ upVersions reg (latestRecorded st.rows), v < N →
      applies env reg v = true)
    (hsc : reg.index N = some sc) (hlen : sc.Up.length ≠ 0)
    (hfail : env.rawOk sc.Up = false ∨ env.insertOk N = false) :
    (sql.Up env reg st).1
      = (if env.rollbackOk N = true then Outcome.ok
          else Outcome.error (Err.upRollbackFailed N)) ∧
    Err.message (Err.upRollbackFailed N)
      = "failed to rollback migration with version " ++ toString N ∧
    insertsIssued (sql.Up env reg st).2.calls
      = insertsIssued st.calls
        ++ (upVersions reg (latestRecorded st.rows)).filter (fun v => decide (v < N))
        ++ [N] := by
  obtain ⟨hpre, post, hup⟩ := Up_reaches st N hprobe hlatest hscan htop hN hbefore
  have hidx := fun v hv => (hpre v hv).2
  rw [hup, upLoop_cons_of_fails env reg N post _ sc hsc hlen hfail]
  refine ⟨rfl, rfl, ?_⟩
  simp [Store.record, insertsIssued_append, insertsIssued,
    insertsIssued_applyCalls reg _ hidx]

/-- C12 (amended) with the script of version 2 and the rollback failing: `Up` returns
the rollback error of version 2. -/
theorem C12_up_failure_outcome_witness :
    (sql.Up (Env.failingHard "u2")
        [(1, some ⟨"u1", "d1"⟩), (2, some ⟨"u2", "d2"⟩), (3, some ⟨"u3", "d3"⟩)]
        Store.fresh).1
      = Outcome.error (Err.upRollbackFailed 2) :=
  (C12_up_failure_outcome (Env.failingHard "u2")
    [(1, some ⟨"u1", "d1"⟩), (2, some ⟨"u2", "d2"⟩), (3, some ⟨"u3", "d3"⟩)]
    Store.fresh 2 ⟨"u2", "d2"⟩ rfl rfl (fun _ => rfl) (by decide) (by decide) (by decide)
    rfl (by decide) (Or.inl (by decide))).1

/-- C13: when the latest recorded version v is not 0 and has a registered, non-empty down
script, and the down script or the delete of the tracking rows fails: if the rollback
succeeds, `Down` returns nil and the table is as before; `Down` returns an error exactly
when the rollback fails, and it is the rollback error of v. -/
theorem C13_down_atomic_on_failure (env : Env) (reg : Registry) (st : Store)
    (sc : Script)
    (hprobe : env.probeOk = true) (hlatest : env.latestOk = true)
    (hscan : env.scanOk = true)
    (hv : latestRecorded st.rows ≠ 0)
    (hsc : reg.index (latestRecorded st.rows) = some sc) (hlen : sc.Down.length ≠ 0)
    (hfail : env.rawOk sc.Down = false ∨ env.deleteOk (latestRecorded st.rows) = false) :
    (env.rollbackOk (latestRecorded st.rows) = true →
      (sql.Down env reg st).1 = Outcome.ok ∧ (sql.Down env reg st).2.rows = st.rows) ∧
    ((∃ e, (sql.Down env reg st).1 = Outcome.error e)
      ↔ env.rollbackOk (latestRecorded st.rows) = false) ∧
    (env.rollbackOk (latestRecorded st.rows) = false →
      (sql.Down env reg st).1
        = Outcome.error (Err.downRollbackFailed (latestRecorded st.rows))) := by
  have hand : ¬ (env.rawOk sc.Down && env.deleteOk (latestRecorded st.rows)) = true := by
    rcases hfail with h | h <;> simp [h]
  rw [Down_of_script st sc hprobe hlatest hscan hv hsc hlen, if_neg hand]
  by_cases hrb : env.rollbackOk (latestRecorded st.rows) = true
  · rw [if_pos hrb]
    refine ⟨fun _ => ⟨rfl, rfl⟩, ?_, ?_⟩
    · simp [hrb]
    · intro h
      rw [hrb] at h
      exact absurd h (by simp)
  · rw [if_neg hrb]
    have hrb2 : env.rollbackOk (latestRecorded st.rows) = false := by simpa using hrb
    refine ⟨fun h => absurd h hrb, ?_, fun _ => rfl⟩
    simp [hrb2]

/-- C13 with versions 1 and 2 recorded and the down script of version 2 failing: `Down`
returns nil and both rows stay. -/
theorem C13_down_atomic_on_failure_witness :
    (sql.Down (Env.failing "d2") [(1, some ⟨"u1", "d1"⟩), (2, some ⟨"u2", "d2"⟩)]
        { rows := [1, 2], calls := [] }).1 = Outcome.ok ∧
    (sql.Down (Env.failing "d2") [(1, some ⟨"u1", "d1"⟩), (2, some ⟨"u2", "d2"⟩)]
        { rows := [1, 2], calls := [] }).2.rows = [1, 2] :=
  (C13_down_atomic_on_failure (Env.failing "d2")
    [(1, some ⟨"u1", "d1"⟩), (2, some ⟨"u2", "d2"⟩)] { rows := [1, 2], calls := [] }
    ⟨"u2", "d2"⟩ rfl rfl rfl (by decide) (by decide) (by decide)
    (Or.inl (by decide))).1 rfl


/-! ## The document runner -/

theorem sortedNoSqlKeys_sorted (reg : NoSqlRegistry) :
    (sortedNoSqlKeys reg).Sorted (· < ·) := by
  unfold sortedNoSqlKeys
  apply List.Sorted.lt_of_le (List.sorted_insertionSort _ _)
  exact (List.perm_insertionSort _ _).nodup_iff.mpr (List.nodup_dedup _)

theorem mem_sortedNoSqlKeys {reg : NoSqlRegistry} {k : Int} :
    k ∈ sortedNoSqlKeys reg ↔ k ∈ reg.keys :=
  (List.perm_insertionSort _ _).mem_iff

theorem sortedNoSqlKeys_ne_nil {reg : NoSqlRegistry}
    (h : isNoSqlMigrationsEmpty reg = false) : sortedNoSqlKeys reg ≠ [] := by
  intro hnil
  have hlen : (sortedNoSqlKeys reg).length = reg.keys.length :=
    (List.perm_insertionSort _ _).length_eq
  simp [isNoSqlMigrationsEmpty] at h
  rw [hnil] at hlen
  exact h (List.length_eq_zero.mp hlen.symm)

theorem mem_noSqlKeys_of_index {reg : NoSqlRegistry} {k : Int} {sc : NoSqlScript}
    (h : reg.index k = some sc) : k ∈ reg.keys := by
  unfold NoSqlRegistry.keys
  rw [List.mem_dedup]
  unfold NoSqlRegistry.index at h
  induction reg with
  | nil => simp [List.lookup] at h
  | cons p ps ih =>
    obtain ⟨a, b⟩ := p
    by_cases hk : k = a
    · simp [hk]
    · have hbeq : (k == a) = false := by simpa using hk
      simp only [List.lookup, hbeq] at h
      simp [ih h]

theorem noSql_not_empty_of_mem {reg : NoSqlRegistry} {k : Int} (h : k ∈ reg.keys) :
    isNoSqlMigrationsEmpty reg = false := by
  have : reg.keys ≠ [] := List.ne_nil_of_mem h
  simpa [isNoSqlMigrationsEmpty] using this

theorem firstVersion_sorted (docs : List Int) :
    firstVersion (docs.insertionSort (· ≥ ·)) = latestRecorded docs := by
  unfold latestRecorded firstDesc
  cases docs.insertionSort (· ≥ ·) <;> rfl

/-- With a cursor and successful decodes, the read yields the documents sorted by
version descending. -/
theorem findMigrated_ok {env : NoSqlEnv} (st : NoSqlStore) (hfind : env.findOk = true)
    (hdecode : st.docs ≠ [] → env.decodeOk = true) :
    findMigrated env st
      = (.ok (st.docs.insertionSort (· ≥ ·)), st.record [NoSqlCall.findSorted]) := by
  unfold findMigrated
  cases hs : st.docs.insertionSort (· ≥ ·) with
  | nil => simp [hfind]
  | cons v vs =>
    have hne : st.docs ≠ [] := fun h => by simp [h] at hs
    simp [hfind, hdecode hne]

/-- Past the registry check and the read, the document `Up` runs its loop. -/
theorem noSqlUp_of_reads {env : NoSqlEnv} {reg : NoSqlRegistry} (st : NoSqlStore)
    (hreg : isNoSqlMigrationsEmpty reg = false) (hfind : env.findOk = true)
    (hdecode : st.docs ≠ [] → env.decodeOk = true) :
    nosql.Up env reg st
      = noSqlUpLoop env reg (noSqlUpVersions reg (latestRecorded st.docs))
          (st.record [NoSqlCall.findSorted]) := by
  unfold nosql.Up
  simp only [hreg, findMigrated_ok st hfind hdecode, firstVersion_sorted]
  cases htop : getLatestNoSqlMigrationVersion reg with
  | none => exact absurd (List.getLast?_eq_none_iff.mp htop) (sortedNoSqlKeys_ne_nil hreg)
  | some top => simp

theorem noSqlUpVersions_sorted (reg : NoSqlRegistry) (last : Int) :
    (noSqlUpVersions reg last).Sorted (· < ·) := by
  unfold noSqlUpVersions
  by_cases h : last = 0
  · simpa [h] using sortedNoSqlKeys_sorted reg
  · by_cases hs : findStartGreater last (sortedNoSqlKeys reg) 0 = 0
    · simp [h, hs]
    · simpa [h, hs] using (sortedNoSqlKeys_sorted reg).sublist (List.drop_sublist _ _)

theorem mem_sortedNoSqlKeys_of_mem_versions {reg : NoSqlRegistry} {last v : Int}
    (h : v ∈ noSqlUpVersions reg last) : v ∈ sortedNoSqlKeys reg := by
  unfold noSqlUpVersions at h
  by_cases h0 : last = 0
  · simpa [h0] using h
  · by_cases hs : findStartGreater last (sortedNoSqlKeys reg) 0 = 0
    · simp [h0, hs] at h
    · simp only [h0, hs, if_false, ne_eq, not_false_eq_true, if_true] at h
      exact List.mem_of_mem_drop h

theorem noSqlApplies_iff {env : NoSqlEnv} {reg : NoSqlRegistry} {v : Int} :
    noSqlApplies env reg v = true ↔
      ∃ sc fn, reg.index v = some sc ∧ sc.Up = some fn ∧ env.fnOk fn = true ∧
        env.insertOk v = true := by
  unfold noSqlApplies
  cases h : reg.index v with
  | none => simp
  | some sc =>
    cases hf : sc.Up with
    | none => simp [hf]
    | some fn => simp [hf]

/-- Rounds of the document loop that apply are completed one after the other. -/
theorem noSqlUpLoop_append_of_applies (env : NoSqlEnv) (reg : NoSqlRegistry)
    (pre rest : List Int) (st : NoSqlStore)
    (h : ∀ v ∈ pre, noSqlApplies env reg v = true) :
    noSqlUpLoop env reg (pre ++ rest) st
      = noSqlUpLoop env reg rest
          { docs := st.docs ++ pre,
            calls := st.calls ++ pre.flatMap (noSqlApplyCalls reg) } := by
  induction pre generalizing st with
  | nil => simp
  | cons v vs ih =>
    obtain ⟨sc, fn, hsc, hfn, hok, hins⟩ := noSqlApplies_iff.mp (h v (by simp))
    have hvs : ∀ w ∈ vs, noSqlApplies env reg w = true := fun w hw => h w (by simp [hw])
    rw [List.cons_append, noSqlUpLoop]
    simp only [hsc, hfn, hok, hins, if_true, NoSqlStore.record]
    rw [ih _ hvs]
    simp [noSqlApplyCalls, hsc, hfn]

/-- The documents after the loop: the versions up to the first one that does not apply. -/
theorem noSqlUpLoop_docs (env : NoSqlEnv) (reg : NoSqlRegistry) (vs : List Int)
    (st : NoSqlStore) :
    (noSqlUpLoop env reg vs st).2.docs = st.docs ++ vs.takeWhile (noSqlApplies env reg) := by
  induction vs generalizing st with
  | nil => simp [noSqlUpLoop]
  | cons v vs ih =>
    rw [noSqlUpLoop]
    cases hsc : reg.index v with
    | none => simp [noSqlApplies, hsc]
    | some sc =>
      cases hfn : sc.Up with
      | none => simp [noSqlApplies, hsc, hfn]
      | some fn =>
        by_cases hok : env.fnOk fn = true
        · by_cases hins : env.insertOk v = true
          · have happ : noSqlApplies env reg v = true :=
              noSqlApplies_iff.mpr ⟨sc, fn, hsc, hfn, hok, hins⟩
            simp only [hfn, hok, hins, if_true]
            rw [ih]
            simp [List.takeWhile_cons, happ, NoSqlStore.record]
          · have happ : noSqlApplies env reg v = false := by
              simp [noSqlApplies, hsc, hfn, hins]
            simp [hfn, hok, hins, List.takeWhile_cons, happ, NoSqlStore.record]
        · have happ : noSqlApplies env reg v = false := by
            simp [noSqlApplies, hsc, hfn, hok]
          simp [hfn, hok, List.takeWhile_cons, happ, NoSqlStore.record]

theorem functionsRun_append (a b : List NoSqlCall) :
    functionsRun (a ++ b) = functionsRun a ++ functionsRun b := by
  induction a with
  | nil => rfl
  | cons c cs ih => cases c <;> simp [functionsRun, ih]

theorem documentsInserted_append (a b : List NoSqlCall) :
    documentsInserted (a ++ b) = documentsInserted a ++ documentsInserted b := by
  induction a with
  | nil => rfl
  | cons c cs ih => cases c <;> simp [documentsInserted, ih]

theorem functionsRun_applyCalls (reg : NoSqlRegistry) (vs : List Int)
    (h : ∀ v ∈ vs, ∃ sc fn, reg.index v = some sc ∧ sc.Up = some fn) :
    functionsRun (vs.flatMap (noSqlApplyCalls reg)) = vs.map (upFunction reg) := by
  induction vs with
  | nil => rfl
  | cons v vs ih =>
    obtain ⟨sc, fn, hsc, hfn⟩ := h v (by simp)
    have hvs : ∀ w ∈ vs, ∃ sc fn, reg.index w = some sc ∧ sc.Up = some fn :=
      fun w hw => h w (by simp [hw])
    simp [List.flatMap_cons, functionsRun_append, ih hvs, noSqlApplyCalls, upFunction, hsc,
      hfn, functionsRun]

theorem documentsInserted_applyCalls (reg : NoSqlRegistry) (vs : List Int)
    (h : ∀ v ∈ vs, ∃ sc fn, reg.index v = some sc ∧ sc.Up = some fn) :
    documentsInserted (vs.flatMap (noSqlApplyCalls reg)) = vs := by
  induction vs with
  | nil => rfl
  | cons v vs ih =>
    obtain ⟨sc, fn, hsc, hfn⟩ := h v (by simp)
    have hvs : ∀ w ∈ vs, ∃ sc fn, reg.index w = some sc ∧ sc.Up = some fn :=
      fun w hw => h w (by simp [hw])
    simp [List.flatMap_cons, documentsInserted_append, ih hvs, noSqlApplyCalls, hsc, hfn,
      documentsInserted]


/-- A run of the document `Up` whose target versions smaller than N all apply reaches the
round of N with exactly those versions recorded. -/
theorem noSqlUp_reaches {env : NoSqlEnv} {reg : NoSqlRegistry} (st : NoSqlStore) (N : Int)
    (hfind : env.findOk = true) (hdecode : st.docs ≠ [] → env.decodeOk = true)
    (hN : N ∈ noSqlUpVersions reg (latestRecorded st.docs))
    (hbefore : ∀ v ∈ noSqlUpVersions reg (latestRecorded st.docs), v < N →
      noSqlApplies env reg v = true) :
    (∀ v ∈ (noSqlUpVersions reg (latestRecorded st.docs)).filter (fun v => decide (v < N)),
      v < N ∧ ∃ sc fn, reg.index v = some sc ∧ sc.Up = some fn) ∧
    ∃ post, nosql.Up env reg st = noSqlUpLoop env reg (N :: post)
      { docs := st.docs
          ++ (noSqlUpVersions reg (latestRecorded st.docs)).filter
              (fun v => decide (v < N)),
        calls := st.calls ++ [NoSqlCall.findSorted]
          ++ ((noSqlUpVersions reg (latestRecorded st.docs)).filter
              (fun v => decide (v < N))).flatMap (noSqlApplyCalls reg) } := by
  have hreg : isNoSqlMigrationsEmpty reg = false :=
    noSql_not_empty_of_mem (mem_sortedNoSqlKeys.mp (mem_sortedNoSqlKeys_of_mem_versions hN))
  constructor
  · intro v hv
    obtain ⟨hmem, hlt⟩ := List.mem_filter.mp hv
    have hlt2 : v < N := by simpa using hlt
    obtain ⟨sc, fn, hsc, hfn, _⟩ := noSqlApplies_iff.mp (hbefore v hmem hlt2)
    exact ⟨hlt2, sc, fn, hsc, hfn⟩
  · obtain ⟨pre, post, hsplit⟩ := List.append_of_mem hN
    have hsorted := noSqlUpVersions_sorted reg (latestRecorded st.docs)
    rw [hsplit] at hsorted hbefore
    have hfilter := filter_lt_of_sorted_split hsorted
    have hpre : ∀ v ∈ pre, noSqlApplies env reg v = true := fun v hv =>
      hbefore v (by simp [hv]) ((List.pairwise_append.mp hsorted).2.2 v hv N (by simp))
    refine ⟨post, ?_⟩
    rw [noSqlUp_of_reads st hreg hfind hdecode, hsplit, hfilter,
      noSqlUpLoop_append_of_applies env reg pre (N :: post) _ hpre]
    simp [NoSqlStore.record]

/-- One round of the document loop on a version whose up function returns an error. -/
theorem noSqlUpLoop_cons_of_fails (env : NoSqlEnv) (reg : NoSqlRegistry) (N : Int)
    (post : List Int) (st : NoSqlStore) (sc : NoSqlScript) (fn : String)
    (hsc : reg.index N = some sc) (hfn : sc.Up = some fn) (hfail : env.fnOk fn = false) :
    noSqlUpLoop env reg (N :: post) st
      = (NoSqlOutcome.error (NoSqlErr.upFailed N), st.record [NoSqlCall.run fn]) := by
  rw [noSqlUpLoop]
  simp [hsc, hfn, hfail]

/-- C14: in a run of the document `Up` that reaches target version N (the read succeeds
and the smaller target versions apply) where the up function of N returns an error, `Up`
returns the error wrapping it with version N; the collection is the prior documents
followed by exactly the target versions smaller than N, so the earlier versions stay
recorded and no document is inserted for N or a larger version; and the functions called
are those of the smaller target versions and of N, none of a later version. -/
theorem C14_document_up_stops_at_failure (env : NoSqlEnv) (reg : NoSqlRegistry)
    (st : NoSqlStore) (N : Int) (sc : NoSqlScript) (fn : String)
    (hfind : env.findOk = true) (hdecode : st.docs ≠ [] → env.decodeOk = true)
    (hN : N ∈ noSqlUpVersions reg (latestRecorded st.docs))
    (hbefore : ∀ v ∈ noSqlUpVersions reg (latestRecorded st.docs), v < N →
      noSqlApplies env reg v = true)
    (hsc : reg.index N = some sc) (hfn : sc.Up = some fn)
    (hfail : env.fnOk fn = false) :
    (nosql.Up env reg st).1 = NoSqlOutcome.error (NoSqlErr.upFailed N) ∧
    NoSqlErr.message (NoSqlErr.upFailed N) = "failed to execute migration " ++ toString N ∧
    (nosql.Up env reg st).2.docs
      = st.docs
        ++ (noSqlUpVersions reg (latestRecorded st.docs)).filter
            (fun v => decide (v < N)) ∧
    (∀ v, N ≤ v → (nosql.Up env reg st).2.docs.count v = st.docs.count v) ∧
    documentsInserted (nosql.Up env reg st).2.calls
      = documentsInserted st.calls
        ++ (noSqlUpVersions reg (latestRecorded st.docs)).filter
            (fun v => decide (v < N)) ∧
    functionsRun (nosql.Up env reg st).2.calls
      = functionsRun st.calls
        ++ ((noSqlUpVersions reg (latestRecorded st.docs)).filter
            (fun v => decide (v < N))).map (upFunction reg)
        ++ [fn] := by
  obtain ⟨hpre, post, hup⟩ := noSqlUp_reaches st N hfind hdecode hN hbefore
  have hidx := fun v hv => (hpre v hv).2
  rw [hup, noSqlUpLoop_cons_of_fails env reg N post _ sc fn hsc hfn hfail]
  refine ⟨rfl, rfl, rfl, ?_, ?_, ?_⟩
  · intro v hv
    have : v ∉ (noSqlUpVersions reg (latestRecorded st.docs)).filter
        (fun v => decide (v < N)) := fun hmem => by
      have := (hpre v hmem).1
      omega
    simp [NoSqlStore.record, List.count_append, List.count_eq_zero_of_not_mem this]
  · simp [NoSqlStore.record, documentsInserted_append, documentsInserted,
      documentsInserted_applyCalls reg _ hidx]
  · simp [NoSqlStore.record, functionsRun_append, functionsRun,
      functionsRun_applyCalls reg _ hidx]

/-- C14 on versions 1, 2, 3 and an empty collection with the up function of version 2
failing: `Up` returns the error of version 2 and only version 1 is recorded. -/
theorem C14_document_up_stops_at_failure_witness :
    nosql.Up (NoSqlEnv.failing "up2")
        [(1, some ⟨some "up1", some "down1"⟩), (2, some ⟨some "up2", some "down2"⟩),
         (3, some ⟨some "up3", some "down3"⟩)]
        { docs := [], calls := [] }
      = (NoSqlOutcome.error (NoSqlErr.upFailed 2),
          { docs := [1],
            calls := [NoSqlCall.findSorted, NoSqlCall.run "up1", NoSqlCall.insert 1,
              NoSqlCall.run "up2"] }) ∧
    (nosql.Up (NoSqlEnv.failing "up2")
        [(1, some ⟨some "up1", some "down1"⟩), (2, some ⟨some "up2", some "down2"⟩),
         (3, some ⟨some "up3", some "down3"⟩)]
        { docs := [], calls := [] }).1 = NoSqlOutcome.error (NoSqlErr.upFailed 2) :=
  ⟨by decide,
    (C14_document_up_stops_at_failure (NoSqlEnv.failing "up2")
      [(1, some ⟨some "up1", some "down1"⟩), (2, some ⟨some "up2", some "down2"⟩),
       (3, some ⟨some "up3", some "down3"⟩)]
      { docs := [], calls := [] } 2 ⟨some "up2", some "down2"⟩ "up2" rfl (fun _ => rfl)
      (by decide) (by decide) (by decide) rfl (by decide)).1⟩

/-- C15 (the code at the failing input): registry with keys 2 and 3, collection with the
single version 1. The keys greater than the maximum recorded version 1 are 2 and 3, but
the search sets `start` to 0 for the first key, the slice `versions` stays empty, and
`Up` returns success without calling any function or inserting any document. -/
theorem C15_document_up_versions_below_first_key :
    latestRecorded [1] = 1 ∧
    (sortedNoSqlKeys [(2, some ⟨some "up2", some "down2"⟩),
      (3, some ⟨some "up3", some "down3"⟩)]).filter (fun k => decide (1 < k)) = [2, 3] ∧
    noSqlUpVersions [(2, some ⟨some "up2", some "down2"⟩),
      (3, some ⟨some "up3", some "down3"⟩)] 1 = [] ∧
    nosql.Up NoSqlEnv.allOk [(2, some ⟨some "up2", some "down2"⟩),
        (3, some ⟨some "up3", some "down3"⟩)] { docs := [1], calls := [] }
      = (NoSqlOutcome.ok, { docs := [1], calls := [NoSqlCall.findSorted] }) := by
  decide


/-- Past the registry check and the read, with a registered down function for the
maximum recorded version, the document `Down` calls that function and then deletes. -/
theorem noSqlDown_of_script {env : NoSqlEnv} {reg : NoSqlRegistry} (st : NoSqlStore)
    (sc : NoSqlScript) (fn : String)
    (hfind : env.findOk = true) (hdecode : env.decodeOk = true)
    (hv : latestRecorded st.docs ≠ 0)
    (hsc : reg.index (latestRecorded st.docs) = some sc) (hfn : sc.Down = some fn) :
    nosql.Down env reg st =
      if env.fnOk fn = true then
        if env.deleteOk (latestRecorded st.docs) = true then
          (NoSqlOutcome.ok,
            { docs := st.docs.filter (fun d => decide (d ≠ latestRecorded st.docs)),
              calls := st.calls ++ [NoSqlCall.findSorted, NoSqlCall.run fn,
                NoSqlCall.deleteMany (latestRecorded st.docs)] })
        else
          (NoSqlOutcome.error (NoSqlErr.downDeleteFailed (latestRecorded st.docs)),
            st.record [NoSqlCall.findSorted, NoSqlCall.run fn,
              NoSqlCall.deleteMany (latestRecorded st.docs)])
      else
        (NoSqlOutcome.error (NoSqlErr.downFailed (latestRecorded st.docs)),
          st.record [NoSqlCall.findSorted, NoSqlCall.run fn]) := by
  have hreg := noSql_not_empty_of_mem (mem_noSqlKeys_of_index hsc)
  unfold nosql.Down
  simp only [hreg, findMigrated_ok st hfind (fun _ => hdecode), firstVersion_sorted, hv,
    if_false, hsc, hfn]
  by_cases h1 : env.fnOk fn = true
  · by_cases h2 : env.deleteOk (latestRecorded st.docs) = true
    · simp [h1, h2, NoSqlStore.record]
    · simp [h1, h2, NoSqlStore.record]
  · simp [h1, NoSqlStore.record]

/-- C16: when the maximum recorded version v is not 0 and has a registered down function,
(a) if that function and the delete succeed, the document `Down` returns success, calls
exactly that function, and the collection afterwards is the prior documents without those
whose version equals v; (b) if the function returns an error, `Down` returns the error of
v, issues no delete and leaves the collection as it was. -/
theorem C16_document_down_single_step (env : NoSqlEnv) (reg : NoSqlRegistry)
    (st : NoSqlStore) (sc : NoSqlScript) (fn : String)
    (hfind : env.findOk = true) (hdecode : env.decodeOk = true)
    (hv : latestRecorded st.docs ≠ 0)
    (hsc : reg.index (latestRecorded st.docs) = some sc) (hfn : sc.Down = some fn) :
    (env.fnOk fn = true → env.deleteOk (latestRecorded st.docs) = true →
      (nosql.Down env reg st).1 = NoSqlOutcome.ok ∧
      functionsRun (nosql.Down env reg st).2.calls = functionsRun st.calls ++ [fn] ∧
      (nosql.Down env reg st).2.docs
        = st.docs.filter (fun d => decide (d ≠ latestRecorded st.docs)) ∧
      (∀ d, d ≠ latestRecorded st.docs →
        (nosql.Down env reg st).2.docs.count d = st.docs.count d) ∧
      latestRecorded st.docs ∉ (nosql.Down env reg st).2.docs) ∧
    (env.fnOk fn = false →
      nosql.Down env reg st
        = (NoSqlOutcome.error (NoSqlErr.downFailed (latestRecorded st.docs)),
            st.record [NoSqlCall.findSorted, NoSqlCall.run fn]) ∧
      (nosql.Down env reg st).2.docs = st.docs) := by
  have hdown := noSqlDown_of_script st sc fn hfind hdecode hv hsc hfn
  constructor
  · intro hok hdel
    rw [hdown, if_pos hok, if_pos hdel]
    refine ⟨rfl, ?_, rfl, ?_, ?_⟩
    · simp [functionsRun_append, functionsRun]
    · intro d hd
      simp [List.count_filter, hd]
    · simp [List.mem_filter]
  · intro hfail
    have hno : ¬ env.fnOk fn = true := by simp [hfail]
    rw [hdown, if_neg hno]
    exact ⟨rfl, rfl⟩

/-- C16 on a collection with versions 1, 2, 3 and a second document of version 3: `Down`
calls the down function of version 3 and leaves the documents 1 and 2. -/
theorem C16_document_down_single_step_witness :
    (nosql.Down NoSqlEnv.allOk
        [(1, some ⟨some "up1", some "down1"⟩), (2, some ⟨some "up2", some "down2"⟩),
         (3, some ⟨some "up3", some "down3"⟩)]
        { docs := [1, 2, 3, 3], calls := [] }).2.docs = [1, 2] :=
  ((C16_document_down_single_step NoSqlEnv.allOk
      [(1, some ⟨some "up1", some "down1"⟩), (2, some ⟨some "up2", some "down2"⟩),
       (3, some ⟨some "up3", some "down3"⟩)]
      { docs := [1, 2, 3, 3], calls := [] } ⟨some "up3", some "down3"⟩ "down3" rfl rfl
      (by decide) (by decide) rfl).1 rfl rfl).2.2.1


theorem contains_eq (value : Int) (docs : List Int) :
    contains value docs = decide (value ∈ docs) := by
  induction docs with
  | nil => simp [contains]
  | cons d ds ih =>
    by_cases h : value = d
    · simp [contains, h]
    · simp [contains, h, ih]

/-- On a readable collection the document `Check` reports the registry keys without a
tracking document, in the iteration order of the registry. -/
theorem noSqlCheck_of_reads {env : NoSqlEnv} {reg : NoSqlRegistry} (st : NoSqlStore)
    (hreg : isNoSqlMigrationsEmpty reg = false)
    (hfind : env.findOk = true) (hdecode : env.decodeOk = true) :
    nosql.Check env reg st
      = (if reg.keys.filter (fun k => decide (k ∉ st.docs)) = [] then NoSqlOutcome.ok
          else NoSqlOutcome.error
            (NoSqlErr.notMigrated (reg.keys.filter (fun k => decide (k ∉ st.docs)))),
          st.record [NoSqlCall.find]) := by
  have hkeys : reg.keys ≠ [] := by simpa [isNoSqlMigrationsEmpty] using hreg
  have hfilter : reg.keys.filter (fun v => !contains v st.docs)
      = reg.keys.filter (fun k => decide (k ∉ st.docs)) := by
    apply List.filter_congr
    intro k _
    simp [contains_eq]
  unfold nosql.Check
  simp only [hreg, hfind, hdecode, Bool.or_true, Bool.and_self, if_true, hfilter]
  by_cases hdocs : st.docs = []
  · have hall : reg.keys.filter (fun k => decide (k ∉ st.docs)) = reg.keys := by
      apply List.filter_eq_self.mpr
      intro k _
      simp [hdocs]
    have hlen : st.docs.length = 0 ∧ reg.keys.length ≠ 0 :=
      ⟨by simp [hdocs], fun h => hkeys (List.length_eq_zero.mp h)⟩
    rw [if_pos hlen, hall, if_neg hkeys]
    simp only [Bool.false_eq_true, if_false]
  · have hlen : ¬ (st.docs.length = 0 ∧ reg.keys.length ≠ 0) := fun h =>
      hdocs (List.length_eq_zero.mp h.1)
    rw [if_neg hlen]
    by_cases hmiss : reg.keys.filter (fun k => decide (k ∉ st.docs)) = []
    · have hpos : ¬ (reg.keys.filter (fun k => decide (k ∉ st.docs))).length > 0 := by
        rw [hmiss]
        simp
      rw [if_neg hpos, if_pos hmiss]
      simp only [Bool.false_eq_true, if_false]
    · have hpos : (reg.keys.filter (fun k => decide (k ∉ st.docs))).length > 0 :=
        List.length_pos.mpr hmiss
      rw [if_pos hpos, if_neg hmiss]
      simp only [Bool.false_eq_true, if_false]

/-- C17: for a non-empty registry and a readable tracking collection, the document
`Check` returns success exactly when every registry key is the version of some tracking
document; otherwise it returns the error for the list of exactly the registry keys that
have no tracking document (for an empty collection, all keys), in the iteration order of
the registry, and the message of that error is the text `migration with version [...] is
not migrated!` with the decimal texts of those keys, separated by blanks, between the
brackets. The collection is not changed. -/
theorem C17_document_check_membership (env : NoSqlEnv) (reg : NoSqlRegistry)
    (st : NoSqlStore)
    (hreg : isNoSqlMigrationsEmpty reg = false)
    (hfind : env.findOk = true) (hdecode : env.decodeOk = true) :
    ((nosql.Check env reg st).1 = NoSqlOutcome.ok ↔ ∀ k ∈ reg.keys, k ∈ st.docs) ∧
    ((nosql.Check env reg st).1 ≠ NoSqlOutcome.ok →
      ∃ missing, (nosql.Check env reg st).1 = NoSqlOutcome.error (NoSqlErr.notMigrated missing)
        ∧ missing = reg.keys.filter (fun k => decide (k ∉ st.docs))
        ∧ (∀ k, k ∈ missing ↔ k ∈ reg.keys ∧ k ∉ st.docs)
        ∧ NoSqlErr.message (NoSqlErr.notMigrated missing)
            = "migration with version "
              ++ ("[" ++ " ".intercalate (missing.map (fun k => toString k)) ++ "]")
              ++ " is not migrated!") ∧
    (nosql.Check env reg st).2.docs = st.docs := by
  rw [noSqlCheck_of_reads st hreg hfind hdecode]
  by_cases hmiss : reg.keys.filter (fun k => decide (k ∉ st.docs)) = []
  · have hall : ∀ k ∈ reg.keys, k ∈ st.docs := by
      intro k hk
      have := List.filter_eq_nil_iff.mp hmiss k hk
      simpa using this
    rw [if_pos hmiss]
    exact ⟨⟨fun _ => hall, fun _ => rfl⟩, fun h => absurd rfl h, rfl⟩
  · have hnot : ¬ ∀ k ∈ reg.keys, k ∈ st.docs := by
      intro hall
      apply hmiss
      apply List.filter_eq_nil_iff.mpr
      intro k hk
      simpa using hall k hk
    rw [if_neg hmiss]
    refine ⟨⟨fun h => by simp at h, fun h => absurd h hnot⟩, fun _ => ?_, rfl⟩
    refine ⟨_, rfl, rfl, fun k => ?_, rfl⟩
    simp [List.mem_filter]

/-- C17 at property P4 of the specification: registry with versions 1 and 2, collection
with version 1 only: `Check` fails with the message naming version 2; and with versions
1, 2, 3 registered and only version 2 recorded, the message names 1 and 3. -/
theorem C17_document_check_membership_witness :
    (nosql.Check NoSqlEnv.allOk
        [(1, some ⟨some "up1", some "down1"⟩), (2, some ⟨some "up2", some "down2"⟩)]
        { docs := [1], calls := [] }).1 = NoSqlOutcome.error (NoSqlErr.notMigrated [2]) ∧
    NoSqlErr.message (NoSqlErr.notMigrated [2])
      = "migration with version [2] is not migrated!" ∧
    NoSqlErr.message (NoSqlErr.notMigrated [1, 3])
      = "migration with version [1 3] is not migrated!" ∧
    (nosql.Check NoSqlEnv.allOk
        [(1, some ⟨some "up1", some "down1"⟩), (2, some ⟨some "up2", some "down2"⟩),
         (3, some ⟨some "up3", some "down3"⟩)]
        { docs := [2], calls := [] }).1
      = NoSqlOutcome.error (NoSqlErr.notMigrated [1, 3]) ∧
    ((nosql.Check NoSqlEnv.allOk
        [(1, some ⟨some "up1", some "down1"⟩), (2, some ⟨some "up2", some "down2"⟩)]
        { docs := [1], calls := [] }).1 = NoSqlOutcome.ok ↔
      ∀ k ∈ NoSqlRegistry.keys
        [(1, some ⟨some "up1", some "down1"⟩), (2, some ⟨some "up2", some "down2"⟩)],
        k ∈ ({ docs := [1], calls := [] } : NoSqlStore).docs) :=
  ⟨by decide, by decide, by decide, by decide,
    (C17_document_check_membership NoSqlEnv.allOk
      [(1, some ⟨some "up1", some "down1"⟩), (2, some ⟨some "up2", some "down2"⟩)]
      { docs := [1], calls := [] } (by decide) rfl rfl).1⟩

/-! ## Audit by `Check`, monotonicity, `Initialize` -/

/-- On a readable table, `Check` on a registry with greatest key M succeeds exactly when
M has a row. -/
theorem Check_of_reads {env : Env} {reg : Registry} (st : Store) (M : Int)
    (hM : M ∈ reg.keys) (hmax : ∀ k ∈ reg.keys, k ≤ M)
    (hprobe : env.probeOk = true) (hversions : env.versionsOk = true)
    (hscan : env.scanOk = true) :
    sql.Check env reg st
      = (if M ∈ st.rows then Outcome.ok else Outcome.error (Err.notMigrated M),
          st.record [Call.probe, Call.selectVersions]) := by
  have hreg : isMigrationScriptsEmpty reg = false := by
    have : reg.keys ≠ [] := List.ne_nil_of_mem hM
    simpa [isMigrationScriptsEmpty] using this
  have htop := getLatestMigrationVersion_eq_some.mpr ⟨hM, hmax⟩
  unfold sql.Check
  simp only [hprobe, hreg, if_true, htop]
  rw [isAlreadyMigrated_of_reads M _ hversions hscan]
  simp [Store.record]

/-- C18 (as stated, refuted): registry with keys 1 and 2 and a table with the row of
version 2 only: key 1 has no tracking row, yet `Check` returns success. -/
theorem C18_check_passes_with_missing_lower_key :
    1 ∈ Registry.keys [(1, some ⟨"u1", "d1"⟩), (2, some ⟨"u2", "d2"⟩)] ∧
    1 ∉ ({ rows := [2], calls := [] } : Store).rows ∧
    sql.Check Env.allOk [(1, some ⟨"u1", "d1"⟩), (2, some ⟨"u2", "d2"⟩)]
        { rows := [2], calls := [] }
      = (Outcome.ok, { rows := [2], calls := [Call.probe, Call.selectVersions] }) := by
  decide

/-- C18 (amended): for a registry with greatest key M and a readable tracking table,
`Check` fails whenever M has no tracking row, and succeeds whenever M has one, whether or
not the smaller keys have rows. -/
theorem C18_check_audits_maximum_only (env : Env) (reg : Registry) (st : Store) (M : Int)
    (hM : M ∈ reg.keys) (hmax : ∀ k ∈ reg.keys, k ≤ M)
    (hprobe : env.probeOk = true) (hversions : env.versionsOk = true)
    (hscan : env.scanOk = true) :
    (M ∉ st.rows → ∃ e, (sql.Check env reg st).1 = Outcome.error e) ∧
    (M ∈ st.rows → (sql.Check env reg st).1 = Outcome.ok) := by
  rw [Check_of_reads st M hM hmax hprobe hversions hscan]
  constructor
  · intro h
    exact ⟨Err.notMigrated M, by rw [if_neg h]⟩
  · intro h
    rw [if_pos h]

/-- C18 (amended) on the registry with keys 1 and 2 and a table with the row of version 1
only: the greatest key has no row and `Check` fails. -/
theorem C18_check_audits_maximum_only_witness :
    ∃ e, (sql.Check Env.allOk [(1, some ⟨"u1", "d1"⟩), (2, some ⟨"u2", "d2"⟩)]
      { rows := [1], calls := [] }).1 = Outcome.error e :=
  (C18_check_audits_maximum_only Env.allOk
    [(1, some ⟨"u1", "d1"⟩), (2, some ⟨"u2", "d2"⟩)] { rows := [1], calls := [] } 2
    (by decide) (by decide) rfl rfl rfl).1 (by decide)

/-- The rows after the relational `Up` are the prior rows followed by added ones. -/
theorem Up_rows_append (env : Env) (reg : Registry) (st : Store) :
    ∃ added, (sql.Up env reg st).2.rows = st.rows ++ added := by
  by_cases hreads : env.probeOk = true ∧ isMigrationScriptsEmpty reg = false ∧
      env.latestOk = true ∧ (st.rows ≠ [] → env.scanOk = true)
  · obtain ⟨hp, he, hq, hs⟩ := hreads
    exact ⟨_, Up_rows_of_reads st hp he hq hs⟩
  · exact ⟨[], by rw [Up_rows_of_not_reads st hreads, List.append_nil]⟩

/-- The rows after the relational `Down` are the prior rows, or those among them below
the version read as latest. -/
theorem Down_rows_cases (env : Env) (reg : Registry) (st : Store) :
    (sql.Down env reg st).2.rows = st.rows ∨
    ∃ v, (sql.Down env reg st).2.rows = st.rows.filter (fun r => decide (r < v)) := by
  unfold sql.Down
  by_cases hp : env.probeOk = true
  swap
  · left; simp [hp, Store.record]
  by_cases he : isMigrationScriptsEmpty reg = true
  · left; simp [hp, he, Store.record]
  simp only [hp, he, if_true, if_false]
  have hst := getLatest_store env (st.record [Call.probe])
  cases hget : getLatestMigrationVersionFromDatabase env (st.record [Call.probe]) with
  | mk res st2 =>
    rw [hget] at hst
    simp only at hst
    subst hst
    cases res with
    | error e => left; simp [Store.record]
    | ok version =>
      by_cases hv : version = 0
      · left; simp [hv, Store.record]
      · cases hsc : reg.index version with
        | none => left; simp [hv, hsc, Store.record]
        | some sc =>
          by_cases hlen : sc.Down.length = 0
          · left; simp [hv, hsc, hlen, Store.record]
          · by_cases hok : (env.rawOk sc.Down && env.deleteOk version) = true
            · by_cases hc : env.commitOk version = true
              · right
                exact ⟨version, by simp [hv, hsc, hlen, hok, hc, Store.record]⟩
              · left; simp [hv, hsc, hlen, hok, hc, Store.record]
            · by_cases hr : env.rollbackOk version = true
              · left; simp [hv, hsc, hlen, hok, hr, Store.record]
              · left; simp [hv, hsc, hlen, hok, hr, Store.record]


theorem findMigrated_store (env : NoSqlEnv) (st : NoSqlStore) :
    (findMigrated env st).2 = st.record [NoSqlCall.findSorted] := by
  unfold findMigrated
  cases env.findOk <;> cases st.docs.insertionSort (· ≥ ·) <;> cases env.decodeOk <;> rfl

/-- The documents after the document `Up` are the prior ones followed by added ones. -/
theorem noSqlUp_docs_append (env : NoSqlEnv) (reg : NoSqlRegistry) (st : NoSqlStore) :
    ∃ added, (nosql.Up env reg st).2.docs = st.docs ++ added := by
  unfold nosql.Up
  by_cases he : isNoSqlMigrationsEmpty reg = true
  · exact ⟨[], by simp [he]⟩
  simp only [he, if_false]
  have hst := findMigrated_store env st
  cases hget : findMigrated env st with
  | mk res st1 =>
    rw [hget] at hst
    simp only at hst
    subst hst
    cases res with
    | error e => exact ⟨[], by simp [NoSqlStore.record]⟩
    | ok migrated =>
      cases htop : getLatestNoSqlMigrationVersion reg with
      | none => exact ⟨[], by simp [NoSqlStore.record]⟩
      | some top =>
        exact ⟨(noSqlUpVersions reg (firstVersion migrated)).takeWhile (noSqlApplies env reg),
          by simp [noSqlUpLoop_docs, NoSqlStore.record]⟩

/-- The documents after the document `Down` are the prior ones, or those among them with
a version other than the one read as maximum. -/
theorem noSqlDown_docs_cases (env : NoSqlEnv) (reg : NoSqlRegistry) (st : NoSqlStore) :
    (nosql.Down env reg st).2.docs = st.docs ∨
    ∃ v, (nosql.Down env reg st).2.docs = st.docs.filter (fun d => decide (d ≠ v)) := by
  unfold nosql.Down
  by_cases he : isNoSqlMigrationsEmpty reg = true
  · left; simp [he]
  simp only [he, if_false]
  have hst := findMigrated_store env st
  cases hget : findMigrated env st with
  | mk res st1 =>
    rw [hget] at hst
    simp only at hst
    subst hst
    cases res with
    | error e => left; simp [NoSqlStore.record]
    | ok migrated =>
      by_cases hv : firstVersion migrated = 0
      · left; simp [hv, NoSqlStore.record]
      · cases hsc : reg.index (firstVersion migrated) with
        | none => left; simp [hv, hsc, NoSqlStore.record]
        | some sc =>
          cases hfn : sc.Down with
          | none => left; simp [hv, hsc, hfn, NoSqlStore.record]
          | some fn =>
            by_cases hok : env.fnOk fn = true
            · by_cases hdel : env.deleteOk (firstVersion migrated) = true
              · right
                exact ⟨firstVersion migrated,
                  by simp [hv, hsc, hfn, hok, hdel, NoSqlStore.record]⟩
              · left; simp [hv, hsc, hfn, hok, hdel, NoSqlStore.record]
            · left; simp [hv, hsc, hfn, hok, NoSqlStore.record]

/-- C19: in both runners, for every registry, environment and tracking store, the records
after `Up` are the prior records followed by added ones (no record is removed or
changed), and the records after `Down` are a sublist of the prior records (no record is
added); so no version has fewer records after `Up` or more records after `Down`. -/
theorem C19_up_only_adds_down_only_removes (env : Env) (reg : Registry) (st : Store)
    (nenv : NoSqlEnv) (nreg : NoSqlRegistry) (nst : NoSqlStore) :
    ((∃ added, (sql.Up env reg st).2.rows = st.rows ++ added) ∧
      (∀ v, st.rows.count v ≤ (sql.Up env reg st).2.rows.count v)) ∧
    ((sql.Down env reg st).2.rows.Sublist st.rows ∧
      (∀ v, (sql.Down env reg st).2.rows.count v ≤ st.rows.count v)) ∧
    ((∃ added, (nosql.Up nenv nreg nst).2.docs = nst.docs ++ added) ∧
      (∀ v, nst.docs.count v ≤ (nosql.Up nenv nreg nst).2.docs.count v)) ∧
    ((nosql.Down nenv nreg nst).2.docs.Sublist nst.docs ∧
      (∀ v, (nosql.Down nenv nreg nst).2.docs.count v ≤ nst.docs.count v)) := by
  have hdown : (sql.Down env reg st).2.rows.Sublist st.rows := by
    rcases Down_rows_cases env reg st with h | ⟨v, h⟩
    · rw [h]
    · rw [h]
      exact List.filter_sublist _
  have hndown : (nosql.Down nenv nreg nst).2.docs.Sublist nst.docs := by
    rcases noSqlDown_docs_cases nenv nreg nst with h | ⟨v, h⟩
    · rw [h]
    · rw [h]
      exact List.filter_sublist _
  refine ⟨⟨Up_rows_append env reg st, ?_⟩, ⟨hdown, fun v => hdown.count_le v⟩,
    ⟨noSqlUp_docs_append nenv nreg nst, ?_⟩, ⟨hndown, fun v => hndown.count_le v⟩⟩
  · intro v
    obtain ⟨added, h⟩ := Up_rows_append env reg st
    rw [h, List.count_append]
    omega
  · intro v
    obtain ⟨added, h⟩ := noSqlUp_docs_append nenv nreg nst
    rw [h, List.count_append]
    omega

/-- C20: when the existence probe of the tracking table succeeds, `Initialize` returns
success after the probe alone: it opens no transaction and issues no statement, and the
rows are unchanged. A second call does the same, so the rows after two calls are the
rows after one. -/
theorem C20_initialize_existing_table (env : Env) (st : Store)
    (hprobe : env.probeOk = true) :
    sql.Initialize env st = (Outcome.ok, st.record [Call.probe]) ∧
    (sql.Initialize env st).2.calls = st.calls ++ [Call.probe] ∧
    (sql.Initialize env st).2.rows = st.rows ∧
    (sql.Initialize env (sql.Initialize env st).2).1 = Outcome.ok ∧
    (sql.Initialize env (sql.Initialize env st).2).2.rows
      = (sql.Initialize env st).2.rows ∧
    (sql.Initialize env (sql.Initialize env st).2).2.calls
      = st.calls ++ [Call.probe, Call.probe] := by
  have h : ∀ s : Store, sql.Initialize env s = (Outcome.ok, s.record [Call.probe]) := by
    intro s
    simp [sql.Initialize, hprobe]
  rw [h (sql.Initialize env st).2, h st]
  exact ⟨rfl, rfl, rfl, rfl, rfl, by simp [Store.record]⟩

/-- C20 on an existing table with rows 1 and 2. -/
theorem C20_initialize_existing_table_witness :
    sql.Initialize Env.allOk { rows := [1, 2], calls := [] }
      = (Outcome.ok, { rows := [1, 2], calls := [Call.probe] }) :=
  (C20_initialize_existing_table Env.allOk { rows := [1, 2], calls := [] } rfl).1


/-! ## `Initialize`, `Truncate` and the latest-version read -/

/-- C21 (as stated, refuted): when the table does not exist yet, the creation succeeds
and the commit of the creation fails, `Initialize` returns the commit error although no
rollback took place. -/
theorem C21_initialize_commit_error :
    (sql.Initialize { Env.allOk with probeOk := false, createCommitOk := false }
      Store.fresh)
      = (Outcome.error Err.createCommitFailed,
          { rows := [],
            calls := [Call.probe, Call.begin, Call.createTable, Call.commit] }) := by
  decide

/-- C21 (amended): `Initialize` returns an error exactly when the table is not found and
either the creation fails and its rollback fails, or the creation succeeds and its commit
fails; when the table is found, when it is created and committed, and when the creation
fails and is rolled back, it returns success. It never crashes. -/
theorem C21_initialize_errors (env : Env) (st : Store) :
    ((∃ e, (sql.Initialize env st).1 = Outcome.error e) ↔
      env.probeOk = false ∧
        ((env.createOk = false ∧ env.createRollbackOk = false) ∨
         (env.createOk = true ∧ env.createCommitOk = false))) ∧
    (env.probeOk = true → (sql.Initialize env st).1 = Outcome.ok) ∧
    (env.probeOk = false → env.createOk = true → env.createCommitOk = true →
      (sql.Initialize env st).1 = Outcome.ok) ∧
    (env.probeOk = false → env.createOk = false → env.createRollbackOk = true →
      (sql.Initialize env st).1 = Outcome.ok) ∧
    (env.probeOk = false → env.createOk = false → env.createRollbackOk = false →
      (sql.Initialize env st).1 = Outcome.error Err.createRollbackFailed) ∧
    (sql.Initialize env st).1 ≠ Outcome.panic ∧
    (sql.Initialize env st).2.rows = st.rows := by
  unfold sql.Initialize
  cases hp : env.probeOk <;> cases hc : env.createOk <;> cases hr : env.createRollbackOk <;>
    cases hm : env.createCommitOk <;> simp [Store.record]

/-- C22: if the existence probe fails, `Truncate` returns the table-not-found error after
the probe alone (no truncate statement); if the probe and the statement succeed, it
returns success and the table is empty; if the probe succeeds and the statement fails, it
returns the truncate error and the rows are as before. -/
theorem C22_truncate (env : Env) (st : Store) :
    (env.probeOk = false →
      sql.Truncate env st = (Outcome.error Err.tableNotFound, st.record [Call.probe])) ∧
    (env.probeOk = true → env.truncateOk = true →
      sql.Truncate env st
        = (Outcome.ok, { rows := [], calls := st.calls ++ [Call.probe, Call.truncate] })) ∧
    (env.probeOk = true → env.truncateOk = false →
      sql.Truncate env st
        = (Outcome.error Err.truncateFailed,
            st.record [Call.probe, Call.truncate])) := by
  unfold sql.Truncate
  refine ⟨fun hp => ?_, fun hp ht => ?_, fun hp ht => ?_⟩
  · simp [hp]
  · simp [hp, ht, Store.record]
  · simp [hp, ht, Store.record]

/-- C22 on a table with rows 1 and 2: with every call succeeding the table is emptied,
and without the table the statement is not issued. -/
theorem C22_truncate_witness :
    sql.Truncate Env.allOk { rows := [1, 2], calls := [] }
      = (Outcome.ok, { rows := [], calls := [Call.probe, Call.truncate] }) ∧
    sql.Truncate Env.noTable { rows := [], calls := [] }
      = (Outcome.error Err.tableNotFound, { rows := [], calls := [Call.probe] }) :=
  ⟨(C22_truncate Env.allOk { rows := [1, 2], calls := [] }).2.1 rfl rfl,
    (C22_truncate Env.noTable { rows := [], calls := [] }).1 rfl⟩


/-- The result of the read used by `Up` and `Down` is the returned pair: the version when
the error is nil, the error otherwise. -/
theorem getLatest_eq_returned (env : Env) (st : Store) :
    (getLatestMigrationVersionFromDatabase env st).1
      = (match latestVersionReturned env st.rows with
          | (v, none) => Except.ok v
          | (_, some e) => Except.error e) := by
  unfold getLatestMigrationVersionFromDatabase latestVersionReturned
  cases env.latestOk <;> cases firstDesc st.rows <;> cases env.scanOk <;> rfl

/-- C24: the version returned by the read of the latest recorded version is, for a
non-empty table that can be read, a row of the table that no row exceeds (the maximum,
whatever the number of rows); 0 with a nil error for an empty table whose query succeeds;
and 0, together with a non-nil error, when the query or the scan fails. -/
theorem C24_latest_recorded_version (env : Env) (rows : List Int) :
    (rows ≠ [] → env.latestOk = true → env.scanOk = true →
      (latestVersionReturned env rows).2 = none ∧
      (latestVersionReturned env rows).1 ∈ rows ∧
      (∀ r ∈ rows, r ≤ (latestVersionReturned env rows).1) ∧
      (latestVersionReturned env rows).1 = latestRecorded rows) ∧
    (rows = [] → env.latestOk = true → latestVersionReturned env rows = (0, none)) ∧
    (env.latestOk = false ∨ (rows ≠ [] ∧ env.scanOk = false) →
      (latestVersionReturned env rows).1 = 0 ∧
      ∃ e, (latestVersionReturned env rows).2 = some e) := by
  refine ⟨fun hne hq hs => ?_, fun hnil hq => ?_, fun h => ?_⟩
  · obtain ⟨hmem, hmax⟩ := latestRecorded_mem hne
    have hret : latestVersionReturned env rows = (latestRecorded rows, none) := by
      unfold latestVersionReturned latestRecorded
      cases hf : firstDesc rows with
      | none => exact absurd (firstDesc_eq_none.mp hf) hne
      | some v => simp [hq, hs]
    rw [hret]
    exact ⟨rfl, hmem, hmax, rfl⟩
  · subst hnil
    simp [latestVersionReturned, hq, firstDesc]
  · rcases h with hq | ⟨hne, hs⟩
    · simp [latestVersionReturned, hq]
    · unfold latestVersionReturned
      cases hf : firstDesc rows with
      | none => exact absurd (firstDesc_eq_none.mp hf) hne
      | some v =>
        cases hq : env.latestOk <;> simp [hs]

/-- C24 on a table with the rows 3, 7, 5: the version read is 7, not the row count 3;
on an empty table it is 0; on a table that cannot be queried it is 0 with an error. -/
theorem C24_latest_recorded_version_witness :
    (latestVersionReturned Env.allOk [3, 7, 5]).1 = latestRecorded [3, 7, 5] ∧
    latestRecorded [3, 7, 5] = 7 ∧
    latestVersionReturned Env.allOk [] = (0, none) ∧
    (latestVersionReturned Env.unreadable [3, 7, 5]).1 = 0 :=
  ⟨((C24_latest_recorded_version Env.allOk [3, 7, 5]).1 (by decide) rfl rfl).2.2.2,
    by decide,
    (C24_latest_recorded_version Env.allOk []).2.1 rfl rfl,
    ((C24_latest_recorded_version Env.unreadable [3, 7, 5]).2.2 (Or.inl rfl)).1⟩

/-- C25: the document `Initialize` returns the not-implemented error and leaves the store
as it is: no call is made and no document changes. It reads neither the registry nor the
environment. -/
theorem C25_document_initialize_fails (st : NoSqlStore) :
    nosql.Initialize st = (NoSqlOutcome.error NoSqlErr.notImplemented, st) ∧
    NoSqlErr.message NoSqlErr.notImplemented = "initialize not implemented in nosql!" ∧
    (nosql.Initialize st).2.calls = st.calls ∧
    (nosql.Initialize st).2.docs = st.docs :=
  ⟨rfl, rfl, rfl, rfl⟩


/-! ## `Down` and the latest recorded version -/

/-- C26: after a successful `Down` on latest recorded version v, in either runner, every
remaining tracking record has a version smaller than v, no record of v remains however
many there were, and the latest recorded version of a non-empty remainder is below v. -/
theorem C26_down_leaves_smaller_versions (env : Env) (reg : Registry) (st : Store)
    (sc : Script) (nenv : NoSqlEnv) (nreg : NoSqlRegistry) (nst : NoSqlStore)
    (nsc : NoSqlScript) (fn : String)
    (hprobe : env.probeOk = true) (hlatest : env.latestOk = true)
    (hscan : env.scanOk = true)
    (hv : latestRecorded st.rows ≠ 0)
    (hsc : reg.index (latestRecorded st.rows) = some sc) (hlen : sc.Down.length ≠ 0)
    (hraw : env.rawOk sc.Down = true)
    (hdel : env.deleteOk (latestRecorded st.rows) = true)
    (hcommit : env.commitOk (latestRecorded st.rows) = true)
    (hfind : nenv.findOk = true) (hdecode : nenv.decodeOk = true)
    (hnv : latestRecorded nst.docs ≠ 0)
    (hnsc : nreg.index (latestRecorded nst.docs) = some nsc) (hfn : nsc.Down = some fn)
    (hok : nenv.fnOk fn = true)
    (hndel : nenv.deleteOk (latestRecorded nst.docs) = true) :
    ((sql.Down env reg st).1 = Outcome.ok ∧
      (∀ r ∈ (sql.Down env reg st).2.rows, r < latestRecorded st.rows) ∧
      (sql.Down env reg st).2.rows.count (latestRecorded st.rows) = 0 ∧
      ((sql.Down env reg st).2.rows ≠ [] →
        latestRecorded (sql.Down env reg st).2.rows < latestRecorded st.rows)) ∧
    ((nosql.Down nenv nreg nst).1 = NoSqlOutcome.ok ∧
      (∀ d ∈ (nosql.Down nenv nreg nst).2.docs, d < latestRecorded nst.docs) ∧
      (nosql.Down nenv nreg nst).2.docs.count (latestRecorded nst.docs) = 0 ∧
      ((nosql.Down nenv nreg nst).2.docs ≠ [] →
        latestRecorded (nosql.Down nenv nreg nst).2.docs < latestRecorded nst.docs)) := by
  constructor
  · have hand : (env.rawOk sc.Down && env.deleteOk (latestRecorded st.rows)) = true := by
      simp [hraw, hdel]
    rw [Down_of_script st sc hprobe hlatest hscan hv hsc hlen, if_pos hand, if_pos hcommit]
    have hall : ∀ r ∈ st.rows.filter (fun r => decide (r < latestRecorded st.rows)),
        r < latestRecorded st.rows := fun r hr => by
      simpa using (List.mem_filter.mp hr).2
    refine ⟨rfl, hall, ?_, fun hne => ?_⟩
    · apply List.count_eq_zero_of_not_mem
      intro hmem
      exact lt_irrefl _ (hall _ hmem)
    · exact hall _ (latestRecorded_mem hne).1
  · have hmax := (latestRecorded_mem (rows_ne_nil_of_latest hnv)).2
    rw [noSqlDown_of_script nst nsc fn hfind hdecode hnv hnsc hfn, if_pos hok,
      if_pos hndel]
    have hall : ∀ d ∈ nst.docs.filter (fun d => decide (d ≠ latestRecorded nst.docs)),
        d < latestRecorded nst.docs := fun d hd => by
      obtain ⟨hmem, hne⟩ := List.mem_filter.mp hd
      have h1 := hmax d hmem
      have h2 : d ≠ latestRecorded nst.docs := by simpa using hne
      omega
    refine ⟨rfl, hall, ?_, fun hne => ?_⟩
    · apply List.count_eq_zero_of_not_mem
      intro hmem
      exact lt_irrefl _ (hall _ hmem)
    · exact hall _ (latestRecorded_mem hne).1

/-- C26 on version 3 recorded twice: after `Down` only the versions 1 and 2 remain, in
both runners. -/
theorem C26_down_leaves_smaller_versions_witness :
    (sql.Down Env.allOk
      [(1, some ⟨"u1", "d1"⟩), (2, some ⟨"u2", "d2"⟩), (3, some ⟨"u3", "d3"⟩)]
      { rows := [1, 3, 2, 3], calls := [] }).2.rows.count 3 = 0 ∧
    (nosql.Down NoSqlEnv.allOk
      [(1, some ⟨some "up1", some "down1"⟩), (2, some ⟨some "up2", some "down2"⟩),
       (3, some ⟨some "up3", some "down3"⟩)]
      { docs := [1, 3, 2, 3], calls := [] }).2.docs.count 3 = 0 :=
  ⟨(C26_down_leaves_smaller_versions Env.allOk
      [(1, some ⟨"u1", "d1"⟩), (2, some ⟨"u2", "d2"⟩), (3, some ⟨"u3", "d3"⟩)]
      { rows := [1, 3, 2, 3], calls := [] } ⟨"u3", "d3"⟩ NoSqlEnv.allOk
      [(1, some ⟨some "up1", some "down1"⟩), (2, some ⟨some "up2", some "down2"⟩),
       (3, some ⟨some "up3", some "down3"⟩)]
      { docs := [1, 3, 2, 3], calls := [] } ⟨some "up3", some "down3"⟩ "down3"
      rfl rfl rfl (by decide) (by decide) (by decide) rfl rfl rfl
      rfl rfl (by decide) (by decide) rfl rfl rfl).1.2.2.1,
    (C26_down_leaves_smaller_versions Env.allOk
      [(1, some ⟨"u1", "d1"⟩), (2, some ⟨"u2", "d2"⟩), (3, some ⟨"u3", "d3"⟩)]
      { rows := [1, 3, 2, 3], calls := [] } ⟨"u3", "d3"⟩ NoSqlEnv.allOk
      [(1, some ⟨some "up1", some "down1"⟩), (2, some ⟨some "up2", some "down2"⟩),
       (3, some ⟨some "up3", some "down3"⟩)]
      { docs := [1, 3, 2, 3], calls := [] } ⟨some "up3", some "down3"⟩ "down3"
      rfl rfl rfl (by decide) (by decide) (by decide) rfl rfl rfl
      rfl rfl (by decide) (by decide) rfl rfl rfl).2.2.2.1⟩

/-- C28: for a non-empty registry and a tracking store whose latest recorded version
reads as 0 (an empty store, or rows of version 0 with nothing above), `Down` returns
success after its read alone in both runners: no down script or function is run, no
delete is issued and the records are unchanged. -/
theorem C28_down_on_latest_zero (env : Env) (reg : Registry) (st : Store)
    (nenv : NoSqlEnv) (nreg : NoSqlRegistry) (nst : NoSqlStore)
    (hprobe : env.probeOk = true) (hlatest : env.latestOk = true)
    (hscan : st.rows ≠ [] → env.scanOk = true)
    (hreg : isMigrationScriptsEmpty reg = false)
    (hzero : latestRecorded st.rows = 0)
    (hfind : nenv.findOk = true) (hdecode : nst.docs ≠ [] → nenv.decodeOk = true)
    (hnreg : isNoSqlMigrationsEmpty nreg = false)
    (hnzero : latestRecorded nst.docs = 0) :
    (sql.Down env reg st = (Outcome.ok, st.record [Call.probe, Call.selectLatest]) ∧
      (sql.Down env reg st).2.rows = st.rows ∧
      scriptsRun (sql.Down env reg st).2.calls = scriptsRun st.calls) ∧
    (nosql.Down nenv nreg nst = (NoSqlOutcome.ok, nst.record [NoSqlCall.findSorted]) ∧
      (nosql.Down nenv nreg nst).2.docs = nst.docs ∧
      functionsRun (nosql.Down nenv nreg nst).2.calls = functionsRun nst.calls) := by
  have hdown : sql.Down env reg st
      = (Outcome.ok, st.record [Call.probe, Call.selectLatest]) := by
    have hget := @getLatest_ok env (st.record [Call.probe]) hlatest hscan
    have hrows : (st.record [Call.probe]).rows = st.rows := rfl
    rw [hrows, hzero] at hget
    unfold sql.Down
    simp only [hprobe, hreg, if_true, hget]
    simp [Store.record]
  have hndown : nosql.Down nenv nreg nst
      = (NoSqlOutcome.ok, nst.record [NoSqlCall.findSorted]) := by
    unfold nosql.Down
    simp only [hnreg, findMigrated_ok nst hfind hdecode, firstVersion_sorted, hnzero]
    simp
  rw [hdown, hndown]
  refine ⟨⟨rfl, rfl, ?_⟩, ⟨rfl, rfl, ?_⟩⟩
  · simp [Store.record, scriptsRun_append, scriptsRun]
  · simp [NoSqlStore.record, functionsRun_append, functionsRun]

/-- C28 on a store holding versions 0 and -1 with a registry of version 1: `Down` leaves
both records in both runners. -/
theorem C28_down_on_latest_zero_witness :
    sql.Down Env.allOk [(1, some ⟨"u1", "d1"⟩)] { rows := [0, -1], calls := [] }
      = (Outcome.ok, { rows := [0, -1], calls := [Call.probe, Call.selectLatest] }) ∧
    nosql.Down NoSqlEnv.allOk [(1, some ⟨some "up1", some "down1"⟩)]
        { docs := [0, -1], calls := [] }
      = (NoSqlOutcome.ok, { docs := [0, -1], calls := [NoSqlCall.findSorted] }) :=
  ⟨(C28_down_on_latest_zero Env.allOk [(1, some ⟨"u1", "d1"⟩)]
      { rows := [0, -1], calls := [] } NoSqlEnv.allOk
      [(1, some ⟨some "up1", some "down1"⟩)] { docs := [0, -1], calls := [] }
      rfl rfl (fun _ => rfl) (by decide) (by decide) rfl (fun _ => rfl) (by decide)
      (by decide)).1.1,
    (C28_down_on_latest_zero Env.allOk [(1, some ⟨"u1", "d1"⟩)]
      { rows := [0, -1], calls := [] } NoSqlEnv.allOk
      [(1, some ⟨some "up1", some "down1"⟩)] { docs := [0, -1], calls := [] }
      rfl rfl (fun _ => rfl) (by decide) (by decide) rfl (fun _ => rfl) (by decide)
      (by decide)).2.1⟩


/-! ## The maximum-key lookup and the constructors -/

theorem getLatestMigrationVersion_eq_none {reg : Registry} :
    getLatestMigrationVersion reg = none ↔ isMigrationScriptsEmpty reg = true := by
  unfold getLatestMigrationVersion
  rw [List.getLast?_eq_none_iff]
  constructor
  · intro h
    by_contra hne
    exact sortedKeys_ne_nil (by simpa using hne) h
  · intro h
    have hk : reg.keys = [] := by simpa [isMigrationScriptsEmpty] using h
    simp [sortedKeys, hk]

theorem getLatestNoSqlMigrationVersion_eq_none {reg : NoSqlRegistry} :
    getLatestNoSqlMigrationVersion reg = none ↔ isNoSqlMigrationsEmpty reg = true := by
  unfold getLatestNoSqlMigrationVersion
  rw [List.getLast?_eq_none_iff]
  constructor
  · intro h
    by_contra hne
    exact sortedNoSqlKeys_ne_nil (by simpa using hne) h
  · intro h
    have hk : reg.keys = [] := by simpa [isNoSqlMigrationsEmpty] using h
    simp [sortedNoSqlKeys, hk]

theorem getLatestNoSqlMigrationVersion_eq_some {reg : NoSqlRegistry} {M : Int} :
    getLatestNoSqlMigrationVersion reg = some M ↔ M ∈ reg.keys ∧ ∀ k ∈ reg.keys, k ≤ M := by
  unfold getLatestNoSqlMigrationVersion
  rw [getLast?_sorted_iff (sortedNoSqlKeys_sorted reg)]
  simp only [mem_sortedNoSqlKeys]

/-- The relational `Check` never crashes. -/
theorem Check_ne_panic (env : Env) (reg : Registry) (st : Store) :
    (sql.Check env reg st).1 ≠ Outcome.panic := by
  unfold sql.Check
  by_cases hp : env.probeOk = true
  swap
  · simp [hp]
  by_cases he : isMigrationScriptsEmpty reg = true
  · simp [hp, he]
  cases htop : getLatestMigrationVersion reg with
  | none => exact absurd (getLatestMigrationVersion_eq_none.mp htop) he
  | some v =>
    simp only [hp, he, if_true, if_false]
    unfold isAlreadyMigrated
    by_cases hq : env.versionsOk = true
    · simp only [hq, if_true]
      repeat' split
      all_goals simp
    · simp [hq]

/-- C29: the lookup `keys[len(keys)-1]` of either runner is out of range exactly for an
empty registry; for a non-empty registry it returns the greatest key; with an empty
registry `Up` and `Check` return before the lookup and do not crash; and the relational
`Check`, whose only index expression is this lookup, never crashes. -/
theorem C29_maximum_key_lookup (env : Env) (reg : Registry) (st : Store)
    (nenv : NoSqlEnv) (nreg : NoSqlRegistry) (nst : NoSqlStore) :
    (getLatestMigrationVersion reg = none ↔ isMigrationScriptsEmpty reg = true) ∧
    (getLatestNoSqlMigrationVersion nreg = none ↔ isNoSqlMigrationsEmpty nreg = true) ∧
    (isMigrationScriptsEmpty reg = false →
      ∃ M, getLatestMigrationVersion reg = some M ∧ M ∈ reg.keys ∧ ∀ k ∈ reg.keys, k ≤ M) ∧
    (isNoSqlMigrationsEmpty nreg = false →
      ∃ M, getLatestNoSqlMigrationVersion nreg = some M ∧ M ∈ nreg.keys ∧
        ∀ k ∈ nreg.keys, k ≤ M) ∧
    (isMigrationScriptsEmpty reg = true →
      (sql.Up env reg st).1 ≠ Outcome.panic ∧ (sql.Check env reg st).1 ≠ Outcome.panic) ∧
    (isNoSqlMigrationsEmpty nreg = true →
      nosql.Up nenv nreg nst = (NoSqlOutcome.ok, nst) ∧
      nosql.Check nenv nreg nst = (NoSqlOutcome.ok, nst)) ∧
    (sql.Check env reg st).1 ≠ Outcome.panic := by
  refine ⟨getLatestMigrationVersion_eq_none, getLatestNoSqlMigrationVersion_eq_none,
    fun h => ?_, fun h => ?_, fun h => ⟨?_, Check_ne_panic env reg st⟩, fun h => ?_,
    Check_ne_panic env reg st⟩
  · cases htop : getLatestMigrationVersion reg with
    | none =>
      rw [getLatestMigrationVersion_eq_none.mp htop] at h
      exact absurd h (by simp)
    | some M =>
      obtain ⟨h1, h2⟩ := getLatestMigrationVersion_eq_some.mp htop
      exact ⟨M, rfl, h1, h2⟩
  · cases htop : getLatestNoSqlMigrationVersion nreg with
    | none =>
      rw [getLatestNoSqlMigrationVersion_eq_none.mp htop] at h
      exact absurd h (by simp)
    | some M =>
      obtain ⟨h1, h2⟩ := getLatestNoSqlMigrationVersion_eq_some.mp htop
      exact ⟨M, rfl, h1, h2⟩
  · unfold sql.Up
    by_cases hp : env.probeOk = true <;> simp [hp, h]
  · exact ⟨by simp [nosql.Up, h], by simp [nosql.Check, h]⟩

/-- C30: each constructor returns an error exactly when the store handle or the logger is
nil; with both present it returns the runner holding the handle, the logger and the
registry as passed, for every registry, the nil map and the empty map included. -/
theorem C30_constructors {O L : Type} (orm : Option O) (logger : Option L)
    (migrations : Option Registry) (documents : Option NoSqlRegistry) :
    ((∃ e, NewSqlMigration orm migrations logger = Except.error e)
      ↔ orm = none ∨ logger = none) ∧
    (∀ o l, orm = some o → logger = some l →
      NewSqlMigration orm migrations logger
        = Except.ok { orm := o, migrations := migrations, logger := l }) ∧
    ((∃ e, NewNoSqlMigration orm documents logger = Except.error e)
      ↔ orm = none ∨ logger = none) ∧
    (∀ o l, orm = some o → logger = some l →
      NewNoSqlMigration orm documents logger
        = Except.ok { orm := o, migrations := documents, logger := l }) := by
  cases orm <;> cases logger <;> simp [NewSqlMigration, NewNoSqlMigration]

/-- C30 with handles present: the nil registry and the empty registry are accepted and
kept as passed; without a store handle the constructor returns its error. -/
theorem C30_constructors_witness :
    NewSqlMigration (some ()) none (some ())
      = Except.ok { orm := (), migrations := none, logger := () } ∧
    NewNoSqlMigration (some ()) (some []) (some ())
      = Except.ok { orm := (), migrations := some [], logger := () } ∧
    (∃ e, NewSqlMigration (none : Option Unit) (some []) (some ()) = Except.error e) :=
  ⟨(C30_constructors (some ()) (some ()) none none).2.1 () () rfl rfl,
    (C30_constructors (some ()) (some ()) none (some [])).2.2.2 () () rfl rfl,
    (C30_constructors (none : Option Unit) (some ()) (some []) none).1.mpr (Or.inl rfl)⟩


/-! ## `Down` followed by `Up` -/

theorem eq_singleton_of_nodup {l : List Int} {M : Int} (hnd : l.Nodup) (hM : M ∈ l)
    (hall : ∀ x ∈ l, x = M) : l = [M] := by
  cases l with
  | nil => simp at hM
  | cons a as =>
    have ha : a = M := hall a (by simp)
    cases as with
    | nil => rw [ha]
    | cons b bs =>
      have hb : b = M := hall b (by simp)
      rw [ha, hb] at hnd
      simp at hnd

/-- When the table holds the registry keys and the rows below the greatest key M are
what is left, the versions of `Up` are M alone. -/
theorem upVersions_after_down {reg : Registry} {rows : List Int} {M : Int}
    (hpos : ∀ k ∈ reg.keys, 0 < k)
    (hmem : ∀ k, k ∈ rows ↔ k ∈ reg.keys)
    (hM : M ∈ reg.keys) (hmax : ∀ k ∈ reg.keys, k ≤ M) :
    upVersions reg (latestRecorded (rows.filter (fun r => decide (r < M)))) = [M] ∧
    latestRecorded (rows.filter (fun r => decide (r < M))) ≠ M := by
  have hMpos := hpos M hM
  by_cases hnil : rows.filter (fun r => decide (r < M)) = []
  · rw [hnil, latestRecorded_nil]
    refine ⟨?_, by omega⟩
    have hT : upVersions reg 0 = sortedKeys reg := by simp [upVersions]
    rw [hT]
    apply eq_singleton_of_nodup (sortedKeys_sorted reg).nodup (mem_sortedKeys.mpr hM)
    intro x hx
    have hxk := mem_sortedKeys.mp hx
    have hle := hmax x hxk
    by_contra hne
    have hlt : x < M := by omega
    have : x ∈ rows.filter (fun r => decide (r < M)) :=
      List.mem_filter.mpr ⟨(hmem x).mpr hxk, by simpa using hlt⟩
    rw [hnil] at this
    simp at this
  · obtain ⟨hL, hLmax⟩ := latestRecorded_mem hnil
    obtain ⟨hLrows, hLlt⟩ := List.mem_filter.mp hL
    have hLlt2 : latestRecorded (rows.filter (fun r => decide (r < M))) < M := by
      simpa using hLlt
    have hLkey := (hmem _).mp hLrows
    have hL0 : latestRecorded (rows.filter (fun r => decide (r < M))) ≠ 0 := by
      have := hpos _ hLkey
      omega
    refine ⟨?_, by omega⟩
    rw [upVersions_of_registered hLkey hL0]
    apply eq_singleton_of_nodup
      ((sortedKeys_sorted reg).nodup.sublist (List.filter_sublist _))
      (List.mem_filter.mpr ⟨mem_sortedKeys.mpr hM, by simpa using hLlt2⟩)
    intro x hx
    obtain ⟨hxs, hxgt⟩ := List.mem_filter.mp hx
    have hxk := mem_sortedKeys.mp hxs
    have hle := hmax x hxk
    have hgt : latestRecorded (rows.filter (fun r => decide (r < M))) < x := by
      simpa using hxgt
    by_contra hne
    have hlt : x < M := by omega
    have hin : x ∈ rows.filter (fun r => decide (r < M)) :=
      List.mem_filter.mpr ⟨(hmem x).mpr hxk, by simpa using hlt⟩
    have := hLmax x hin
    omega

/-- C27: for a registry of positive versions with greatest key M, whose entry for M has
non-empty up and down scripts, and a tracking table holding exactly the registry keys once
each: when every call succeeds, `Down` followed by `Up` both return success, the scripts
run are the down script and then the up script of M and no other, and the table again
holds exactly the registry keys once each. -/
theorem C27_down_then_up_round_trip (env : Env) (reg : Registry) (st : Store) (M : Int)
    (sc : Script)
    (hpos : ∀ k ∈ reg.keys, 0 < k)
    (hperm : st.rows.Perm (sortedKeys reg))
    (hM : M ∈ reg.keys) (hmax : ∀ k ∈ reg.keys, k ≤ M)
    (hsc : reg.index M = some sc) (hup : sc.Up.length ≠ 0) (hdown : sc.Down.length ≠ 0)
    (hprobe : env.probeOk = true) (hlatest : env.latestOk = true)
    (hscan : env.scanOk = true)
    (hrawDown : env.rawOk sc.Down = true) (hrawUp : env.rawOk sc.Up = true)
    (hdel : env.deleteOk M = true) (hins : env.insertOk M = true)
    (hcommit : env.commitOk M = true) :
    (sql.Down env reg st).1 = Outcome.ok ∧
    (sql.Up env reg (sql.Down env reg st).2).1 = Outcome.ok ∧
    scriptsRun (sql.Up env reg (sql.Down env reg st).2).2.calls
      = scriptsRun st.calls ++ [sc.Down, sc.Up] ∧
    (sql.Up env reg (sql.Down env reg st).2).2.rows
      = st.rows.filter (fun r => decide (r < M)) ++ [M] ∧
    (sql.Up env reg (sql.Down env reg st).2).2.rows.Perm (sortedKeys reg) ∧
    (sql.Up env reg (sql.Down env reg st).2).2.rows.Nodup := by
  have hmem : ∀ k, k ∈ st.rows ↔ k ∈ reg.keys := fun k =>
    hperm.mem_iff.trans mem_sortedKeys
  have hnodup : st.rows.Nodup := hperm.nodup_iff.mpr (sortedKeys_sorted reg).nodup
  have hLM : latestRecorded st.rows = M :=
    latestRecorded_of_max ((hmem M).mpr hM) (fun r hr => hmax r ((hmem r).mp hr))
  have hM0 : M ≠ 0 := by
    have := hpos M hM
    omega
  have hreg := not_empty_of_index hsc
  -- the call of Down
  have hd : sql.Down env reg st
      = (Outcome.ok,
          { rows := st.rows.filter (fun r => decide (r < M)),
            calls := st.calls ++ [Call.probe, Call.selectLatest, Call.begin,
              Call.txRawSql sc.Down, Call.delete M, Call.commit] }) := by
    have hand : (env.rawOk sc.Down && env.deleteOk (latestRecorded st.rows)) = true := by
      rw [hLM]
      simp [hrawDown, hdel]
    have hc : env.commitOk (latestRecorded st.rows) = true := by rw [hLM]; exact hcommit
    rw [Down_of_script st sc hprobe hlatest hscan (by rw [hLM]; exact hM0)
      (by rw [hLM]; exact hsc) hdown, if_pos hand, if_pos hc, hLM]
  -- the call of Up
  obtain ⟨hT, hne⟩ := upVersions_after_down hpos hmem hM hmax
  have htop : getLatestMigrationVersion reg = some M :=
    getLatestMigrationVersion_eq_some.mpr ⟨hM, hmax⟩
  have happ : ∀ v ∈ [M], applies env reg v = true := by
    intro v hv
    rw [List.mem_singleton.mp hv]
    exact applies_iff.mpr ⟨sc, hsc, hup, hrawUp, hins, hcommit⟩
  have hu : sql.Up env reg (sql.Down env reg st).2
      = (Outcome.ok,
          { rows := st.rows.filter (fun r => decide (r < M)) ++ [M],
            calls := st.calls ++ [Call.probe, Call.selectLatest, Call.begin,
              Call.txRawSql sc.Down, Call.delete M, Call.commit, Call.probe,
              Call.selectLatest, Call.begin, Call.txRawSql sc.Up, Call.insert M,
              Call.commit] }) := by
    rw [hd, Up_of_reads _ hprobe hreg hlatest (fun _ => hscan)]
    have hneq : ¬ getLatestMigrationVersion reg
        = some (latestRecorded (st.rows.filter (fun r => decide (r < M)))) := by
      rw [htop]
      intro h
      exact hne (Option.some.inj h).symm
    simp only []
    rw [if_neg hneq, hT]
    have h := upLoop_append_of_applies env reg [M] []
      (Store.record
        { rows := st.rows.filter (fun r => decide (r < M)),
          calls := st.calls ++ [Call.probe, Call.selectLatest, Call.begin,
            Call.txRawSql sc.Down, Call.delete M, Call.commit] }
        [Call.probe, Call.selectLatest]) happ
    rw [List.append_nil] at h
    rw [h]
    simp [upLoop, Store.record, applyCalls, hsc]
  have hrest : st.rows.filter (fun r => !decide (r < M)) = [M] := by
    apply eq_singleton_of_nodup (hnodup.sublist (List.filter_sublist _))
      (List.mem_filter.mpr ⟨(hmem M).mpr hM, by simp⟩)
    intro x hx
    obtain ⟨hxr, hxp⟩ := List.mem_filter.mp hx
    have h1 := hmax x ((hmem x).mp hxr)
    have h2 : ¬ x < M := by simpa using hxp
    omega
  have hsplit : (st.rows.filter (fun r => decide (r < M)) ++ [M]).Perm st.rows := by
    rw [← hrest]
    exact List.filter_append_perm _ _
  rw [hu, hd]
  refine ⟨rfl, rfl, ?_, rfl, hsplit.trans hperm, hsplit.nodup_iff.mpr hnodup⟩
  simp [scriptsRun_append, scriptsRun]

/-- C27 at the scenario of the specification: versions 1 and 2 recorded; `Down` and then
`Up` leave the rows 1 and 2. -/
theorem C27_down_then_up_round_trip_witness :
    (sql.Up Env.allOk
      [(1, some ⟨"CREATE TABLE t(x int)", "DROP TABLE t"⟩),
       (2, some ⟨"ALTER TABLE t ADD y int", "ALTER TABLE t DROP COLUMN y"⟩)]
      (sql.Down Env.allOk
        [(1, some ⟨"CREATE TABLE t(x int)", "DROP TABLE t"⟩),
         (2, some ⟨"ALTER TABLE t ADD y int", "ALTER TABLE t DROP COLUMN y"⟩)]
        { rows := [1, 2], calls := [] }).2).2.rows = [1, 2] :=
  (C27_down_then_up_round_trip Env.allOk
    [(1, some ⟨"CREATE TABLE t(x int)", "DROP TABLE t"⟩),
     (2, some ⟨"ALTER TABLE t ADD y int", "ALTER TABLE t DROP COLUMN y"⟩)]
    { rows := [1, 2], calls := [] } 2
    ⟨"ALTER TABLE t ADD y int", "ALTER TABLE t DROP COLUMN y"⟩
    (by decide) (by decide) (by decide) (by decide) (by decide) (by decide) (by decide)
    rfl rfl rfl rfl rfl rfl rfl rfl).2.2.2.1


/-! ## The document `Up` twice -/

theorem findStartGreater_split (last : Int) (A B : List Int) (i : Nat)
    (hA : ∀ a ∈ A, a ≤ last) (hB : ∀ b ∈ B, last < b) :
    findStartGreater last (A ++ B) i = if B = [] then 0 else i + A.length := by
  induction A generalizing i with
  | nil =>
    cases B with
    | nil => simp [findStartGreater]
    | cons b bs =>
      have hb : b > last := hB b (by simp)
      simp [findStartGreater, hb]
  | cons a as ih =>
    have ha : ¬ a > last := by
      have := hA a (by simp)
      omega
    have has : ∀ x ∈ as, x ≤ last := fun x hx => hA x (by simp [hx])
    rw [List.cons_append, findStartGreater, if_neg ha, ih _ has]
    by_cases hBnil : B = []
    · simp [hBnil]
    · simp only [hBnil, if_false, List.length_cons]
      omega

/-- The versions of the document `Up` for a latest recorded version other than 0 that
splits the sorted keys: the keys above it, provided some key is not above it. -/
theorem noSqlUpVersions_of_split {reg : NoSqlRegistry} {last : Int} (A B : List Int)
    (hk : sortedNoSqlKeys reg = A ++ B) (hA : ∀ a ∈ A, a ≤ last)
    (hB : ∀ b ∈ B, last < b) (h0 : last ≠ 0) :
    noSqlUpVersions reg last = if A = [] then [] else B := by
  unfold noSqlUpVersions
  simp only [h0, if_false, hk, findStartGreater_split last A B 0 hA hB]
  by_cases hBnil : B = []
  · simp [hBnil]
  · by_cases hAnil : A = []
    · simp [hBnil, hAnil]
    · have hlen : A.length ≠ 0 := fun h => hAnil (List.length_eq_zero.mp h)
      simp [hBnil, hAnil, hlen]

theorem sorted_split_at {l : List Int} (hs : l.Sorted (· < ·)) (L : Int) :
    ∃ A B, l = A ++ B ∧ (∀ a ∈ A, a ≤ L) ∧ (∀ b ∈ B, L < b) := by
  induction l with
  | nil => exact ⟨[], [], rfl, by simp, by simp⟩
  | cons x xs ih =>
    have hx := List.pairwise_cons.mp hs
    by_cases hle : x ≤ L
    · obtain ⟨A, B, hsplit, hA, hB⟩ := ih hx.2
      refine ⟨x :: A, B, by rw [hsplit]; rfl, ?_, hB⟩
      intro a ha
      rcases List.mem_cons.mp ha with rfl | ha
      · exact hle
      · exact hA a ha
    · refine ⟨[], x :: xs, rfl, by simp, ?_⟩
      intro b hb
      rcases List.mem_cons.mp hb with rfl | hb
      · omega
      · have := hx.1 b hb
        omega

/-- With positive keys, the versions of the document `Up` are none, or a final segment of
the sorted keys all of whose members exceed every recorded version. -/
theorem noSqlKeys_split_versions {reg : NoSqlRegistry} (hpos : ∀ k ∈ reg.keys, 0 < k)
    (docs : List Int) :
    noSqlUpVersions reg (latestRecorded docs) = [] ∨
    ∃ A, sortedNoSqlKeys reg = A ++ noSqlUpVersions reg (latestRecorded docs) ∧
      ∀ d ∈ docs, ∀ t ∈ noSqlUpVersions reg (latestRecorded docs), d < t := by
  by_cases hL : latestRecorded docs = 0
  · right
    have hT : noSqlUpVersions reg (latestRecorded docs) = sortedNoSqlKeys reg := by
      simp [noSqlUpVersions, hL]
    rw [hT]
    refine ⟨[], rfl, ?_⟩
    intro d hd t ht
    have hne : docs ≠ [] := List.ne_nil_of_mem hd
    have h1 := (latestRecorded_mem hne).2 d hd
    have h2 := hpos t (mem_sortedNoSqlKeys.mp ht)
    omega
  · obtain ⟨A, B, hsplit, hA, hB⟩ :=
      sorted_split_at (sortedNoSqlKeys_sorted reg) (latestRecorded docs)
    rw [noSqlUpVersions_of_split A B hsplit hA hB hL]
    by_cases hAnil : A = []
    · left
      simp [hAnil]
    · right
      simp only [hAnil, if_false]
      refine ⟨A, hsplit, ?_⟩
      intro d hd t ht
      have h1 := (latestRecorded_mem (rows_ne_nil_of_latest hL)).2 d hd
      have h2 := hB t ht
      omega

/-- The documents are unchanged when the document `Up` does not get past its registry
check and its read. -/
theorem noSqlUp_docs_of_not_reads {env : NoSqlEnv} {reg : NoSqlRegistry} (st : NoSqlStore)
    (h : ¬ (isNoSqlMigrationsEmpty reg = false ∧ env.findOk = true ∧
      (st.docs ≠ [] → env.decodeOk = true))) :
    (nosql.Up env reg st).2.docs = st.docs := by
  unfold nosql.Up
  by_cases he : isNoSqlMigrationsEmpty reg = false
  swap
  · simp [he]
  by_cases hf : env.findOk = true
  swap
  · simp [he, hf, findMigrated, NoSqlStore.record]
  have hd : ¬ (st.docs ≠ [] → env.decodeOk = true) := fun hd => h ⟨he, hf, hd⟩
  simp only [Classical.not_imp] at hd
  obtain ⟨hne, hdec⟩ := hd
  cases hs : st.docs.insertionSort (· ≥ ·) with
  | nil =>
    have hlen := (List.perm_insertionSort (· ≥ ·) st.docs).length_eq
    rw [hs] at hlen
    exact absurd (List.length_eq_zero.mp hlen.symm) hne
  | cons v vs => simp [he, hf, findMigrated, hs, hdec, NoSqlStore.record]

/-- The documents after the document `Up` when it gets past its read. -/
theorem noSqlUp_docs_of_reads {env : NoSqlEnv} {reg : NoSqlRegistry} (st : NoSqlStore)
    (hreg : isNoSqlMigrationsEmpty reg = false) (hfind : env.findOk = true)
    (hdecode : st.docs ≠ [] → env.decodeOk = true) :
    (nosql.Up env reg st).2.docs = st.docs ++
      (noSqlUpVersions reg (latestRecorded st.docs)).takeWhile (noSqlApplies env reg) := by
  rw [noSqlUp_of_reads st hreg hfind hdecode, noSqlUpLoop_docs]
  rfl


/-- C23 (as stated, refuted): with the single key 0 on an empty collection, the first
document `Up` records version 0 and the second records it once more; with the single key
-1 on a collection holding version 0, the first `Up` records -1 and the second records it
once more. -/
theorem C23_document_up_twice_differs_at_zero :
    (nosql.Up NoSqlEnv.allOk [(0, some ⟨some "up0", some "down0"⟩)]
      { docs := [], calls := [] }).2.docs = [0] ∧
    (nosql.Up NoSqlEnv.allOk [(0, some ⟨some "up0", some "down0"⟩)]
      (nosql.Up NoSqlEnv.allOk [(0, some ⟨some "up0", some "down0"⟩)]
        { docs := [], calls := [] }).2).2.docs = [0, 0] ∧
    (nosql.Up NoSqlEnv.allOk [(-1, some ⟨some "upm", some "downm"⟩)]
      { docs := [0], calls := [] }).2.docs = [0, -1] ∧
    (nosql.Up NoSqlEnv.allOk [(-1, some ⟨some "upm", some "downm"⟩)]
      (nosql.Up NoSqlEnv.allOk [(-1, some ⟨some "upm", some "downm"⟩)]
        { docs := [0], calls := [] }).2).2.docs = [0, -1, -1] := by
  decide

/-- C23 (amended): for a registry whose keys are all positive and every initial content of
the tracking collection, with the outcome of every call fixed by the environment, the
collection after a second document `Up` equals the collection after the first. -/
theorem C23_document_up_twice (env : NoSqlEnv) (reg : NoSqlRegistry) (st : NoSqlStore)
    (hpos : ∀ k ∈ reg.keys, 0 < k) :
    (nosql.Up env reg (nosql.Up env reg st).2).2.docs = (nosql.Up env reg st).2.docs := by
  by_cases hreads : isNoSqlMigrationsEmpty reg = false ∧ env.findOk = true ∧
      (st.docs ≠ [] → env.decodeOk = true)
  swap
  · have h1 := noSqlUp_docs_of_not_reads st hreads
    apply noSqlUp_docs_of_not_reads
    rw [h1]
    exact hreads
  obtain ⟨he, hf, hd⟩ := hreads
  by_cases hd2 : (nosql.Up env reg st).2.docs ≠ [] → env.decodeOk = true
  swap
  · exact noSqlUp_docs_of_not_reads _ (fun h => hd2 h.2.2)
  rw [noSqlUp_docs_of_reads _ he hf hd2]
  suffices h : (noSqlUpVersions reg (latestRecorded (nosql.Up env reg st).2.docs)).takeWhile
      (noSqlApplies env reg) = [] by
    rw [h, List.append_nil]
  have hdocs := noSqlUp_docs_of_reads st he hf hd
  have hsplit := noSqlKeys_split_versions hpos st.docs
  generalize hT : noSqlUpVersions reg (latestRecorded st.docs) = T at hdocs hsplit
  by_cases hPnil : T.takeWhile (noSqlApplies env reg) = []
  · rw [hdocs, hPnil, List.append_nil, hT]
    exact hPnil
  have hTne : T ≠ [] := fun h => hPnil (by rw [h]; rfl)
  obtain ⟨A, hA, hlt⟩ := hsplit.resolve_left hTne
  have hdrop := takeWhile_dropWhile_nil (noSqlApplies env reg) T
  have hTsplit := (List.takeWhile_append_dropWhile (noSqlApplies env reg) T).symm
  generalize T.dropWhile (noSqlApplies env reg) = R at hdrop hTsplit
  generalize T.takeWhile (noSqlApplies env reg) = P at hdocs hPnil hTsplit
  have hsorted := sortedNoSqlKeys_sorted reg
  rw [hA, hTsplit] at hsorted
  obtain ⟨_, hPR, hAPR⟩ := List.pairwise_append.mp hsorted
  obtain ⟨hPsorted, _, hPltR⟩ := List.pairwise_append.mp hPR
  have hPlt : ∀ d ∈ st.docs, ∀ t ∈ P, d < t := fun d hd t ht =>
    hlt d hd t (by rw [hTsplit]; exact List.mem_append_left _ ht)
  have hlastP := List.getLast_mem hPnil
  have hmaxP := ((getLast?_sorted_iff hPsorted (P.getLast hPnil)).mp
    (List.getLast?_eq_getLast P hPnil)).2
  have hkeys : sortedNoSqlKeys reg = (A ++ P) ++ R := by
    rw [hA, hTsplit, List.append_assoc]
  have hlast_mem : P.getLast hPnil ∈ reg.keys :=
    mem_sortedNoSqlKeys.mp (by rw [hkeys]; simp [hlastP])
  have hlast0 : P.getLast hPnil ≠ 0 := by
    have := hpos _ hlast_mem
    omega
  have hbelow : ∀ a ∈ A ++ P, a ≤ P.getLast hPnil := by
    intro a ha
    rcases List.mem_append.mp ha with ha | ha
    · exact le_of_lt (hAPR a ha _ (List.mem_append_left _ hlastP))
    · exact hmaxP a ha
  have habove : ∀ b ∈ R, P.getLast hPnil < b := fun b hb => hPltR _ hlastP b hb
  have hAP : A ++ P ≠ [] := by simp [hPnil]
  rw [hdocs, latestRecorded_append hPnil hPsorted hPlt,
    noSqlUpVersions_of_split (A ++ P) R hkeys hbelow habove hlast0, if_neg hAP]
  exact hdrop

/-- C23 (amended) on versions 1, 2, 3 with the up function of version 2 failing: both
runs leave the collection with version 1 only. -/
theorem C23_document_up_twice_witness :
    (nosql.Up (NoSqlEnv.failing "up2")
      [(1, some ⟨some "up1", some "down1"⟩), (2, some ⟨some "up2", some "down2"⟩),
       (3, some ⟨some "up3", some "down3"⟩)]
      (nosql.Up (NoSqlEnv.failing "up2")
        [(1, some ⟨some "up1", some "down1"⟩), (2, some ⟨some "up2", some "down2"⟩),
         (3, some ⟨some "up3", some "down3"⟩)]
        { docs := [], calls := [] }).2).2.docs
    = (nosql.Up (NoSqlEnv.failing "up2")
        [(1, some ⟨some "up1", some "down1"⟩), (2, some ⟨some "up2", some "down2"⟩),
         (3, some ⟨some "up3", some "down3"⟩)]
        { docs := [], calls := [] }).2.docs :=
  C23_document_up_twice (NoSqlEnv.failing "up2")
    [(1, some ⟨some "up1", some "down1"⟩), (2, some ⟨some "up2", some "down2"⟩),
     (3, some ⟨some "up3", some "down3"⟩)]
    { docs := [], calls := [] } (by decide)

end Migration
